import Mathlib

/-!
A shallow embedding of the Twen audio-synthesis core (src/node.rs and
src/parser.rs) together with proofs about its node-graph runtime and its
lexer / parser / graph-loader pipeline.

Floating-point values (`f32` in the source) are modelled by `F32`: exact
rationals for finite values plus the two infinities and NaN, with the IEEE
special-value propagation rules; rounding of finite results is not modelled
(finite arithmetic is exact).  The transcendental `sin` used by the
oscillator nodes is kept abstract as a parameter `MathModel.sinQ`.
-/

namespace Twen

/-!
Exact rational arithmetic implemented on numerator/denominator via `mkRat`.
These compute by kernel reduction (Mathlib's `Rat.add`, `Rat.mul`, … are
`@[irreducible]`); the bridge lemmas `qadd_eq_add` … below prove each equal
to the standard field operation on `ℚ`.
-/

/-- Rational addition, computed on numerator and denominator. -/
def qadd (a b : ℚ) : ℚ := mkRat (a.num * b.den + b.num * a.den) (a.den * b.den)

/-- Rational negation, computed on the numerator. -/
def qneg (a : ℚ) : ℚ := mkRat (-a.num) a.den

/-- Rational subtraction. -/
def qsub (a b : ℚ) : ℚ := qadd a (qneg b)

/-- Rational multiplication, computed on numerators and denominators. -/
def qmul (a b : ℚ) : ℚ := mkRat (a.num * b.num) (a.den * b.den)

/-- Rational division, computed on numerators and denominators
(`qdiv a 0 = 0`, as for `ℚ` division; the `F32` operations below special-case
zero divisors before ever calling it). -/
def qdiv (a b : ℚ) : ℚ := mkRat (a.num * b.den * b.num.sign) (a.den * b.num.natAbs)

/-- Model of Rust `f32`: a finite value (exact rational), `inf`, `-inf` or NaN. -/
inductive F32 where
  | fin (q : ℚ)
  | inf
  | ninf
  | nan
deriving DecidableEq, Repr

namespace F32

/-- Truncation toward zero of a rational, as Rust float casts/`trunc` do. -/
def ratTrunc (q : ℚ) : ℤ := Int.tdiv q.num q.den

/-- IEEE-style negation. -/
def neg : F32 → F32
  | fin q => fin (qneg q)
  | inf => ninf
  | ninf => inf
  | nan => nan

/-- IEEE-style addition (finite part exact). -/
def add : F32 → F32 → F32
  | nan, _ => nan
  | _, nan => nan
  | fin a, fin b => fin (qadd a b)
  | inf, ninf => nan
  | ninf, inf => nan
  | inf, _ => inf
  | _, inf => inf
  | ninf, _ => ninf
  | _, ninf => ninf

/-- IEEE-style subtraction. -/
def sub (a b : F32) : F32 := add a (neg b)

/-- IEEE-style multiplication (finite part exact; `inf * 0 = NaN`). -/
def mul : F32 → F32 → F32
  | nan, _ => nan
  | _, nan => nan
  | fin a, fin b => fin (qmul a b)
  | inf, inf => inf
  | inf, ninf => ninf
  | ninf, inf => ninf
  | ninf, ninf => inf
  | inf, fin b => if b = 0 then nan else if 0 < b then inf else ninf
  | ninf, fin b => if b = 0 then nan else if 0 < b then ninf else inf
  | fin a, inf => if a = 0 then nan else if 0 < a then inf else ninf
  | fin a, ninf => if a = 0 then nan else if 0 < a then ninf else inf

/-- IEEE-style division (signed zeroes not modelled; division of a finite
value by zero yields an infinity, `0/0` yields NaN). -/
def div : F32 → F32 → F32
  | nan, _ => nan
  | _, nan => nan
  | fin a, fin b =>
      if b = 0 then (if a = 0 then nan else if 0 < a then inf else ninf)
      else fin (qdiv a b)
  | inf, inf => nan
  | inf, ninf => nan
  | ninf, inf => nan
  | ninf, ninf => nan
  | inf, fin b => if 0 ≤ b then inf else ninf
  | ninf, fin b => if 0 ≤ b then ninf else inf
  | fin _, inf => fin 0
  | fin _, ninf => fin 0

/-- Rust `%` on floats: `a - b * trunc(a / b)` for finite operands, NaN when
the divisor is zero or either operand is non-finite (except `a % ±inf = a`). -/
def rem : F32 → F32 → F32
  | nan, _ => nan
  | _, nan => nan
  | inf, _ => nan
  | ninf, _ => nan
  | fin a, inf => fin a
  | fin a, ninf => fin a
  | fin a, fin b =>
      if b = 0 then nan else fin (qsub a (qmul b (mkRat (ratTrunc (qdiv a b)) 1)))

/-- IEEE-style `<` as a boolean: any comparison with NaN is `false`. -/
def ltb : F32 → F32 → Bool
  | nan, _ => false
  | _, nan => false
  | fin a, fin b => decide (a < b)
  | inf, _ => false
  | _, inf => true
  | ninf, ninf => false
  | ninf, _ => true
  | _, ninf => false

/-- IEEE-style `>` as a boolean. -/
def gtb (a b : F32) : Bool := ltb b a

/-- Is the value finite (neither infinite nor NaN)? -/
def isFinite : F32 → Bool
  | fin _ => true
  | _ => false

end F32

/-- `std::f32::consts::PI`: the `f32` nearest to π, an exact rational
(`13176795 / 4194304`). -/
def pi32 : ℚ := mkRat 13176795 4194304

/-- The interpretation of the `sin` library function used by the source:
abstract on finite arguments, NaN on NaN and infinities (as `f32::sin` is). -/
structure MathModel where
  sinQ : ℚ → ℚ

/-- `f32::sin` lifted to `F32` under a `MathModel`. -/
def MathModel.sinF (m : MathModel) : F32 → F32
  | F32.fin q => F32.fin (m.sinQ q)
  | _ => F32.nan

/-- `Phase` from src/node.rs: an oscillator's running cyclic position. -/
structure Phase where
  phase : F32
  phase_step : F32
  period : F32
deriving DecidableEq, Repr

namespace Phase

/-- `Phase::new(period, sample_rate)`: zero phase,
`phase_step = (PI * 2.0) / sample_rate as f32`. -/
def new (period : F32) (sample_rate : ℕ) : Phase :=
  { period := period
    phase := F32.fin 0
    phase_step := F32.div (F32.mul (F32.fin pi32) (F32.fin 2))
      (F32.fin (mkRat (sample_rate : ℤ) 1)) }

/-- `Phase::advance(freq)`: `phase = (phase + phase_step * freq) % period`;
returns the updated `Phase` together with the new phase value. -/
def advance (p : Phase) (freq : F32) : Phase × F32 :=
  let ph := F32.rem (F32.add p.phase (F32.mul p.phase_step freq)) p.period
  ({ p with phase := ph }, ph)

end Phase

/-- `Input` from src/node.rs. -/
inductive Input where
  | Value (v : F32)
  | Node (id : ℕ)
  | Store (id : ℕ)
deriving DecidableEq, Repr

/-- `Input::sample(ctx)`: resolve an operand against the current outputs and
store buffers.  The source indexes the vectors directly (`ctx.outputs[id]`);
the embedding uses a default of `0.0` out of bounds, and the bounds theorems
below show loaded graphs never reach that default. -/
def Input.sample : Input → List F32 → List F32 → F32
  | Input.Value v, _, _ => v
  | Input.Node id, outputs, _ => outputs.getD id (F32.fin 0)
  | Input.Store id, _, store => store.getD id (F32.fin 0)

/-- `Node` from src/node.rs. -/
inductive Node where
  | Null
  | Saw (p : Phase) (freq amp : Input)
  | Sine (p : Phase) (freq amp : Input)
  | Square (p : Phase) (freq amp : Input)
  | Triangle (p : Phase) (freq amp : Input)
  | LFO (p : Phase) (freq : Input)
  | Map (s : Input) (from_min from_max to_min to_max : F32)
  | Mix (a b : Input) (factor : F32)
  | Add (a b : Input)
  | Sub (a b : Input)
  | Mul (a b : Input)
  | Writer (id : ℕ) (value : Input)
  | Output (i : Input)
deriving DecidableEq, Repr

/-- `NodeGraph` from src/node.rs.  `dead` keeps the `Vec` order of the
source (`push` appends at the end, `pop` removes from the end). -/
structure NodeGraph where
  nodes : List Node
  dead : List ℕ
  output_node : Option ℕ
  sample_rate : ℕ
  outputs : List F32
  store : List F32
deriving DecidableEq, Repr

namespace NodeGraph

/-- `NodeGraph::new(sample_rate)`. -/
def new (sample_rate : ℕ) : NodeGraph :=
  { nodes := [], dead := [], outputs := [], store := [],
    output_node := none, sample_rate := sample_rate }

/-- `NodeGraph::create_value_store`: push a zeroed store slot, return its index. -/
def create_value_store (g : NodeGraph) : NodeGraph × ℕ :=
  ({ g with store := g.store ++ [F32.fin 0] }, g.store.length)

/-- `NodeGraph::add_node`: append the node (or reuse the most recently freed
id) and return the id. -/
def add_node (g : NodeGraph) (n : Node) : NodeGraph × ℕ :=
  if g.dead.isEmpty then
    ({ g with nodes := g.nodes ++ [n], outputs := g.outputs ++ [F32.fin 0] },
      g.nodes.length)
  else
    let id := g.dead.getLastD 0
    ({ g with nodes := g.nodes.set id n, dead := g.dead.dropLast }, id)

/-- `NodeGraph::create_output`: add an `Output` node and record it as the
designated output node. -/
def create_output (g : NodeGraph) (from_ : Input) : NodeGraph × ℕ :=
  let r := g.add_node (Node.Output from_)
  ({ r.1 with output_node := some r.2 }, r.2)

/-- `NodeGraph::create_sine`. -/
def create_sine (g : NodeGraph) (freq amp : Input) : NodeGraph × ℕ :=
  g.add_node (Node.Sine (Phase.new (F32.mul (F32.fin pi32) (F32.fin 2)) g.sample_rate) freq amp)

/-- `NodeGraph::create_square`. -/
def create_square (g : NodeGraph) (freq amp : Input) : NodeGraph × ℕ :=
  g.add_node (Node.Square (Phase.new (F32.mul (F32.fin pi32) (F32.fin 2)) g.sample_rate) freq amp)

/-- `NodeGraph::create_saw`. -/
def create_saw (g : NodeGraph) (freq amp : Input) : NodeGraph × ℕ :=
  g.add_node (Node.Saw (Phase.new (F32.mul (F32.fin pi32) (F32.fin 2)) g.sample_rate) freq amp)

/-- `NodeGraph::create_triangle`. -/
def create_triangle (g : NodeGraph) (freq amp : Input) : NodeGraph × ℕ :=
  g.add_node (Node.Triangle (Phase.new (F32.mul (F32.fin pi32) (F32.fin 2)) g.sample_rate) freq amp)

/-- `NodeGraph::create_lfo`. -/
def create_lfo (g : NodeGraph) (freq : Input) : NodeGraph × ℕ :=
  g.add_node (Node.LFO (Phase.new (F32.mul (F32.fin pi32) (F32.fin 2)) g.sample_rate) freq)

/-- `NodeGraph::create_map`. -/
def create_map (g : NodeGraph) (sample : Input) (from_min from_max to_min to_max : F32) :
    NodeGraph × ℕ :=
  g.add_node (Node.Map sample from_min from_max to_min to_max)

/-- `NodeGraph::create_add`. -/
def create_add (g : NodeGraph) (a b : Input) : NodeGraph × ℕ :=
  g.add_node (Node.Add a b)

/-- `NodeGraph::create_sub`. -/
def create_sub (g : NodeGraph) (a b : Input) : NodeGraph × ℕ :=
  g.add_node (Node.Sub a b)

/-- `NodeGraph::create_mul`. -/
def create_mul (g : NodeGraph) (a b : Input) : NodeGraph × ℕ :=
  g.add_node (Node.Mul a b)

/-- `NodeGraph::create_writer`. -/
def create_writer (g : NodeGraph) (id : ℕ) (value : Input) : NodeGraph × ℕ :=
  g.add_node (Node.Writer id value)

/-- `NodeGraph::create_mix`. -/
def create_mix (g : NodeGraph) (a b : Input) (factor : F32) : NodeGraph × ℕ :=
  g.add_node (Node.Mix a b factor)

/-- Result of `NodeGraph::delete_node`: success, the recoverable
`Err("Node doesn't exist")`, or the index-out-of-bounds abort of
`self.nodes[id] = Node::Null`. -/
inductive DelResult where
  | ok (g : NodeGraph)
  | err (msg : String)
  | crash
deriving DecidableEq, Repr

/-- `NodeGraph::delete_node(id)`. -/
def delete_node (g : NodeGraph) (id : ℕ) : DelResult :=
  if id ∈ g.dead then DelResult.err "Node doesn't exist"
  else if id < g.nodes.length then
    DelResult.ok { g with nodes := g.nodes.set id Node.Null, dead := g.dead.concat id }
  else DelResult.crash

end NodeGraph

/-- One arm of the `match` inside `NodeGraph::sample` (src/node.rs lines
190-230): given a node and the current outputs/store context, produce the
updated node (its phase advanced), the value written to `outputs[id]`, and
the updated store (a `Writer` writes its value through).  The order of input
resolution matches the source (e.g. `Triangle` samples its amplitude before
advancing the phase). -/
def stepNode (m : MathModel) (n : Node) (outputs store : List F32) :
    Node × F32 × List F32 :=
  match n with
  | Node.Sine p freq amp =>
      let r := p.advance (freq.sample outputs store)
      (Node.Sine r.1 freq amp, F32.mul (m.sinF r.2) (amp.sample outputs store), store)
  | Node.Square p freq amp =>
      let r := p.advance (freq.sample outputs store)
      (Node.Square r.1 freq amp,
        F32.mul (if F32.gtb r.2 (F32.fin (mkRat 1 2)) then F32.fin 1 else F32.fin (-1))
          (amp.sample outputs store), store)
  | Node.Saw p freq amp =>
      let r := p.advance (freq.sample outputs store)
      (Node.Saw r.1 freq amp,
        F32.mul (F32.sub (F32.mul r.2 (F32.fin 2)) (F32.fin 1)) (amp.sample outputs store),
        store)
  | Node.Triangle p freq amp =>
      let a := amp.sample outputs store
      let r := p.advance (freq.sample outputs store)
      (Node.Triangle r.1 freq amp,
        if F32.ltb r.2 (F32.fin pi32) then
          F32.mul (F32.add (F32.fin (-1)) (F32.mul (F32.div (F32.fin 2) (F32.fin pi32)) r.2)) a
        else
          F32.mul (F32.sub (F32.fin 3) (F32.mul (F32.div (F32.fin 2) (F32.fin pi32)) r.2)) a,
        store)
  | Node.Output input => (Node.Output input, input.sample outputs store, store)
  | Node.LFO p freq =>
      let r := p.advance (freq.sample outputs store)
      (Node.LFO r.1 freq,
        F32.add (F32.mul (m.sinF r.2) (F32.fin (mkRat 1 2))) (F32.fin (mkRat 1 2)), store)
  | Node.Map sample from_min from_max to_min to_max =>
      let s := sample.sample outputs store
      let norm := F32.div (F32.sub s from_min) (F32.sub from_max from_min)
      (Node.Map sample from_min from_max to_min to_max,
        F32.add (F32.mul norm (F32.sub to_max to_min)) to_min, store)
  | Node.Add a b =>
      (Node.Add a b, F32.add (a.sample outputs store) (b.sample outputs store), store)
  | Node.Sub a b =>
      (Node.Sub a b, F32.sub (a.sample outputs store) (b.sample outputs store), store)
  | Node.Mul a b =>
      (Node.Mul a b, F32.mul (a.sample outputs store) (b.sample outputs store), store)
  | Node.Writer id value =>
      let s := value.sample outputs store
      (Node.Writer id value, s, store.set id s)
  | Node.Mix a b f =>
      let sa := a.sample outputs store
      let sb := b.sample outputs store
      (Node.Mix a b f, F32.add (F32.mul (F32.sub (F32.fin 1) f) sa) (F32.mul sb f), store)
  | Node.Null => (Node.Null, F32.fin 0, store)

/-- The mutable state threaded through the `for` loop of `NodeGraph::sample`. -/
structure SState where
  nodes : List Node
  outputs : List F32
  store : List F32
deriving DecidableEq, Repr

/-- One iteration of the `sample` loop at slot `i`: run the node's arm and
write the result into `outputs[i]` (and the node back into `nodes[i]`). -/
def sampleStepAt (m : MathModel) (st : SState) (i : ℕ) : SState :=
  let r := stepNode m (st.nodes.getD i Node.Null) st.outputs st.store
  { nodes := st.nodes.set i r.1, outputs := st.outputs.set i r.2.1, store := r.2.2 }

/-- State after the `sample` loop has processed slots `0, …, r-1` in
ascending order. -/
def passUpto (m : MathModel) (st0 : SState) : ℕ → SState
  | 0 => st0
  | r + 1 => sampleStepAt m (passUpto m st0 r) r

/-- The initial loop state of a `sample` call. -/
def NodeGraph.initState (g : NodeGraph) : SState :=
  { nodes := g.nodes, outputs := g.outputs, store := g.store }

/-- `NodeGraph::sample()`: run the loop over every slot in ascending id
order, then return the designated output slot's value (or the last slot's
if none designated, or `0.0` if the graph is empty).  Returns the updated
graph together with the sample value. -/
def NodeGraph.sample (m : MathModel) (g : NodeGraph) : NodeGraph × F32 :=
  let st := passUpto m g.initState g.nodes.length
  let g' : NodeGraph :=
    { g with nodes := st.nodes, outputs := st.outputs, store := st.store }
  if g.nodes.isEmpty then (g', F32.fin 0)
  else
    let out_node := g.output_node.getD (g.nodes.length - 1)
    (g', st.outputs.getD out_node (F32.fin 0))

/-- `TokenType` from src/parser.rs. -/
inductive TokenType where
  | Unknown
  | Identifier
  | Number
  | LParen
  | RParen
  | Equals
  | Comma
  | EOF
deriving DecidableEq, Repr

/-- `Token` from src/parser.rs. -/
structure Token where
  token_type : TokenType
  lexeme : String
  value : F32
deriving DecidableEq, Repr

/-- Start characters of the lexer's identifier arm
(the range patterns on line 95 of src/parser.rs). -/
def isIdentStart (c : Char) : Bool :=
  (decide ('a' ≤ c) && decide (c ≤ 'z')) || (decide ('A' ≤ c) && decide (c ≤ 'Z')) || c = '_'

/-- Start characters of the lexer's number arm. -/
def isNumStart (c : Char) : Bool :=
  c = '-' || c.isDigit || c = '.'

/-- `is_digit(10) || '.' || '-'`: characters the number arm keeps consuming. -/
def isNumChar (c : Char) : Bool :=
  c.isDigit || c = '.' || c = '-'

/-- The numeric value of a list of decimal digits. -/
def digitsNat (ds : List Char) : ℕ :=
  ds.foldl (fun acc d => acc * 10 + (d.toNat - '0'.toNat)) 0

/-- `str::parse::<f32>` restricted to the character set the lexer's number
arm can produce (digits, `.`, `-`): optional leading sign, then digits with
at most one `.` and at least one digit; the finite value is exact (rounding
to `f32` is not modelled). -/
def parseF32core (t : List Char) : Option ℚ :=
  let ip := t.takeWhile Char.isDigit
  match t.dropWhile Char.isDigit with
  | [] => if ip.isEmpty then none else some (mkRat (digitsNat ip : ℤ) 1)
  | '.' :: fp =>
      if fp.all Char.isDigit then
        if ip.isEmpty && fp.isEmpty then none
        else some (mkRat ((digitsNat ip * 10 ^ fp.length + digitsNat fp : ℕ) : ℤ)
          (10 ^ fp.length))
      else none
  | _ => none

/-- Parse a numeric literal, handling the optional leading `-`. -/
def parseF32 (s : List Char) : Option ℚ :=
  match s with
  | '-' :: t => (parseF32core t).map Neg.neg
  | t => parseF32core t

/-- The loop of `lex` (src/parser.rs lines 93-142), with fuel: the source's
reader does not advance past a `_` character (`is_ascii_alphanumeric` is
false on `_`), so on such inputs the loop never terminates; running out of
fuel models that as an error. -/
def lexLoop : ℕ → List Char → List Token → Except String (List Token)
  | 0, _, _ => Except.error "nontermination"
  | _ + 1, [], acc => Except.ok (acc ++ [Token.mk TokenType.EOF "" (F32.fin 0)])
  | fuel + 1, c :: cs, acc =>
    if isIdentStart c then
      let ident := (c :: cs).takeWhile Char.isAlphanum
      if ident.isEmpty then
        lexLoop fuel (c :: cs) (acc ++ [Token.mk TokenType.Identifier "" (F32.fin 0)])
      else
        lexLoop fuel ((c :: cs).dropWhile Char.isAlphanum)
          (acc ++ [Token.mk TokenType.Identifier ident.asString (F32.fin 0)])
    else if isNumStart c then
      let numcs := (c :: cs).takeWhile isNumChar
      match parseF32 numcs with
      | some v =>
          lexLoop fuel ((c :: cs).dropWhile isNumChar)
            (acc ++ [Token.mk TokenType.Number numcs.asString (F32.fin v)])
      | none => Except.error "Invalid number."
    else if c = '(' then lexLoop fuel cs (acc ++ [Token.mk TokenType.LParen "" (F32.fin 0)])
    else if c = ')' then lexLoop fuel cs (acc ++ [Token.mk TokenType.RParen "" (F32.fin 0)])
    else if c = '=' then lexLoop fuel cs (acc ++ [Token.mk TokenType.Equals "" (F32.fin 0)])
    else if c = ',' then lexLoop fuel cs (acc ++ [Token.mk TokenType.Comma "" (F32.fin 0)])
    else if c = ' ' ∨ c = '\n' ∨ c = '\t' ∨ c = '\r' then lexLoop fuel cs acc
    else if c = '#' then
      lexLoop fuel ((c :: cs).dropWhile (fun d => !(d = '\n' || d = '\r'))) acc
    else lexLoop fuel cs (acc ++ [Token.mk TokenType.Unknown "" (F32.fin 0)])

/-- `lex(input)`: tokenize the whole source, ending with the EOF sentinel. -/
def lex (input : String) : Except String (List Token) :=
  lexLoop (input.length + 2) input.toList []

/-- `Expr` from src/parser.rs. -/
inductive Expr where
  | Literal (v : F32)
  | Identifier (s : String)
  | Assign (a b : Expr)
  | Call (f : String) (args : List Expr)
  | Program (es : List Expr)

/-- The parser's cursor state (`tokens`, `pos`). -/
structure PState where
  tokens : List Token
  pos : ℕ

/-- The parser's stand-in token for an out-of-range `prev()`. -/
def unknownToken : Token := Token.mk TokenType.Unknown "" (F32.fin 0)

/-- `Parser::prev`. -/
def PState.prevTok (st : PState) : Token :=
  if st.pos = 0 then unknownToken else st.tokens.getD (st.pos - 1) unknownToken

/-- `Parser::peek` (`self.tokens[self.pos]`): `none` models the index-out-of-
bounds abort when the cursor is past the end. -/
def PState.peekTok (st : PState) : Option Token := st.tokens.get? st.pos

/-- `Parser::advance`. -/
def PState.adv (st : PState) : PState :=
  if st.pos < st.tokens.length then { st with pos := st.pos + 1 } else st

/-- `Parser::accept`. -/
def PState.accept (st : PState) (tt : TokenType) : Bool × PState :=
  if st.tokens.length ≤ st.pos then (false, st)
  else
    match st.tokens.get? st.pos with
    | some t => if t.token_type = tt then (true, st.adv) else (false, st)
    | none => (false, st)

/-- `Parser::expect`: accept or abort. -/
def PState.expect (st : PState) (tt : TokenType) : Except String PState :=
  let r := st.accept tt
  if r.1 then Except.ok r.2 else Except.error "Expected token"

mutual

/-- `Parser::factor` (fuelled; the mutual recursion of the source goes
through the token position, which the termination argument replaces by
fuel). -/
def factorF : ℕ → PState → Except String (Expr × PState)
  | 0, _ => Except.error "out of fuel"
  | fuel + 1, st =>
    let r := st.accept TokenType.Number
    if r.1 then Except.ok (Expr.Literal r.2.prevTok.value, r.2)
    else
      let r2 := st.accept TokenType.Identifier
      if r2.1 then
        match r2.2.peekTok with
        | none => Except.error "index out of bounds"
        | some t =>
          if t.token_type ≠ TokenType.LParen then
            Except.ok (Expr.Identifier r2.2.prevTok.lexeme, r2.2)
          else callF fuel r2.2
      else
        let r3 := st.accept TokenType.EOF
        if r3.1 then Except.ok (Expr.Literal (F32.fin 0), r3.2)
        else Except.error "Syntax error"

/-- `Parser::call` (entered with the function-name identifier just accepted). -/
def callF : ℕ → PState → Except String (Expr × PState)
  | 0, _ => Except.error "out of fuel"
  | fuel + 1, st =>
    let fname := st.prevTok.lexeme
    match st.expect TokenType.LParen with
    | Except.error e => Except.error e
    | Except.ok st1 =>
      match st1.peekTok with
      | none => Except.error "index out of bounds"
      | some t =>
        if t.token_type ≠ TokenType.RParen then
          match argsF fuel st1 [] with
          | Except.error e => Except.error e
          | Except.ok r => Except.ok (Expr.Call fname r.1, r.2)
        else Except.ok (Expr.Call fname [], st1.adv)

/-- The argument loop inside `Parser::call`. -/
def argsF : ℕ → PState → List Expr → Except String (List Expr × PState)
  | 0, _, _ => Except.error "out of fuel"
  | fuel + 1, st, acc =>
    match factorF fuel st with
    | Except.error e => Except.error e
    | Except.ok (a, st1) =>
      match st1.peekTok with
      | none => Except.error "index out of bounds"
      | some t =>
        if t.token_type = TokenType.RParen then Except.ok (acc ++ [a], st1.adv)
        else
          let r := st1.accept TokenType.Comma
          if r.1 then argsF fuel r.2 (acc ++ [a])
          else Except.ok (acc ++ [a], r.2)

end

/-- `Parser::stmt`.  Note the unconditional `self.advance()` on the
non-assignment path (line 258 of src/parser.rs), which skips the token
following the statement. -/
def stmtF (fuel : ℕ) (st : PState) : Except String (Expr × PState) :=
  match factorF fuel st with
  | Except.error e => Except.error e
  | Except.ok (var_name, st1) =>
    let r := st1.accept TokenType.Equals
    if r.1 then
      match factorF fuel r.2 with
      | Except.error e => Except.error e
      | Except.ok (val, st2) => Except.ok (Expr.Assign var_name val, st2)
    else Except.ok (var_name, r.2.adv)

/-- The `while self.prev().token_type != TokenType::EOF` loop of
`Parser::parse`. -/
def parseLoopF : ℕ → PState → List Expr → Except String (List Expr × PState)
  | 0, _, _ => Except.error "out of fuel"
  | fuel + 1, st, acc =>
    if st.prevTok.token_type = TokenType.EOF then Except.ok (acc, st)
    else
      match stmtF fuel st with
      | Except.error e => Except.error e
      | Except.ok (e, st1) => parseLoopF fuel st1 (acc ++ [e])

/-- `Parser::parse` on an already-lexed token list. -/
def parseTokens (tokens : List Token) : Except String Expr :=
  match parseLoopF (tokens.length * 4 + 16) (PState.mk tokens 0) [] with
  | Except.error e => Except.error e
  | Except.ok r => Except.ok (Expr.Program r.1)

/-- `Parser::new(input)` followed by `parse()`. -/
def parseSource (input : String) : Except String Expr :=
  match lex input with
  | Except.error e => Except.error e
  | Except.ok tokens => parseTokens tokens

/-- `Value` from src/parser.rs: construction-time values. -/
inductive Value where
  | Number (v : F32)
  | NodeID (i : ℕ)
  | StoreID (i : ℕ)
  | Nil
deriving DecidableEq, Repr

/-- `impl Into<Input> for Value`. -/
def Value.toInput : Value → Input
  | Value.Nil => Input.Value (F32.fin 0)
  | Value.NodeID i => Input.Node i
  | Value.StoreID i => Input.Store i
  | Value.Number v => Input.Value v

/-- `Value::get_number`: non-numbers coerce to `0.0`. -/
def Value.get_number : Value → F32
  | Value.Number v => v
  | _ => F32.fin 0

/-- The loader's `variables: HashMap<String, Value>`, modelled as an
association list (only `contains_key`, indexing and `insert` are used, so
the hash order is irrelevant). -/
abbrev Env : Type := List (String × Value)

/-- Map lookup. -/
def envGet (env : Env) (k : String) : Option Value :=
  (List.find? (fun p => p.1 == k) env).map Prod.snd

/-- Map insert-or-update. -/
def envSet (env : Env) (k : String) (v : Value) : Env :=
  if List.any env (fun p => p.1 == k) then
    List.map (fun p => if p.1 == k then (k, v) else p) env
  else List.concat env (k, v)

set_option maxHeartbeats 1000000
set_option maxRecDepth 100000

mutual

/-- `GraphLoader::visit` (fuelled; the source recurses on subexpressions
and loops over statement and argument lists, and every such step decrements
the fuel, so the fuel bounds the total number of visit steps). -/
def visitF : ℕ → Expr → Env → NodeGraph → Except String (Value × Env × NodeGraph)
  | 0, _, _, _ => Except.error "out of fuel"
  | fuel + 1, e, env, g =>
    match e with
    | Expr.Literal v => Except.ok (Value.Number v, env, g)
    | Expr.Identifier s =>
        match envGet env s with
        | none => Except.ok (Value.Nil, envSet env s Value.Nil, g)
        | some v => Except.ok (v, env, g)
    | Expr.Assign a b =>
        match a with
        | Expr.Identifier nam =>
          match visitF fuel b env g with
          | Except.error err => Except.error err
          | Except.ok r => Except.ok (Value.Nil, envSet r.2.1 nam r.1, r.2.2)
        | _ => Except.error "Invalid variable."
    | Expr.Call func args => visitCallF fuel func args env g
    | Expr.Program es =>
        match visitListF fuel es env g with
        | Except.error err => Except.error err
        | Except.ok r => Except.ok (Value.Nil, r.1, r.2)

/-- The statement loop of the `Expr::Program` arm. -/
def visitListF : ℕ → List Expr → Env → NodeGraph → Except String (Env × NodeGraph)
  | _, [], env, g => Except.ok (env, g)
  | 0, _ :: _, _, _ => Except.error "out of fuel"
  | fuel + 1, e :: rest, env, g =>
    match visitF fuel e env g with
    | Except.error err => Except.error err
    | Except.ok r => visitListF fuel rest r.2.1 r.2.2

/-- Visit `args[i], args[i+1], …` (`count` of them) left to right, as the
`Expr::Call` arms do; a missing argument is the index-out-of-bounds abort
of `args[i]`. -/
def visitArgsF : ℕ → List Expr → ℕ → ℕ → Env → NodeGraph →
    Except String (List Value × Env × NodeGraph)
  | _, _, _, 0, env, g => Except.ok ([], env, g)
  | 0, _, _, _ + 1, _, _ => Except.error "out of fuel"
  | fuel + 1, args, i, count + 1, env, g =>
    match args.get? i with
    | none => Except.error "index out of bounds"
    | some a =>
      match visitF fuel a env g with
      | Except.error err => Except.error err
      | Except.ok r =>
        match visitArgsF fuel args (i + 1) count r.2.1 r.2.2 with
        | Except.error err => Except.error err
        | Except.ok r2 => Except.ok (r.1 :: r2.1, r2.2.1, r2.2.2)

/-- The `Expr::Call` arm of `GraphLoader::visit`: closed-set dispatch on the
function name. -/
def visitCallF : ℕ → String → List Expr → Env → NodeGraph →
    Except String (Value × Env × NodeGraph)
  | 0, _, _, _, _ => Except.error "out of fuel"
  | fuel + 1, func, args, env, g =>
    if func = "CreateStore" then
      let r := g.create_value_store
      Except.ok (Value.StoreID r.2, env, r.1)
    else if func = "LFO" then
      match visitArgsF fuel args 0 1 env g with
      | Except.error err => Except.error err
      | Except.ok r =>
        let c := r.2.2.create_lfo (r.1.getD 0 Value.Nil).toInput
        Except.ok (Value.NodeID c.2, r.2.1, c.1)
    else if func = "Output" then
      match visitArgsF fuel args 0 1 env g with
      | Except.error err => Except.error err
      | Except.ok r =>
        let c := r.2.2.create_output (r.1.getD 0 Value.Nil).toInput
        Except.ok (Value.NodeID c.2, r.2.1, c.1)
    else if func = "Sine" then
      match visitArgsF fuel args 0 2 env g with
      | Except.error err => Except.error err
      | Except.ok r =>
        let c := r.2.2.create_sine (r.1.getD 0 Value.Nil).toInput (r.1.getD 1 Value.Nil).toInput
        Except.ok (Value.NodeID c.2, r.2.1, c.1)
    else if func = "Square" then
      match visitArgsF fuel args 0 2 env g with
      | Except.error err => Except.error err
      | Except.ok r =>
        let c := r.2.2.create_square (r.1.getD 0 Value.Nil).toInput (r.1.getD 1 Value.Nil).toInput
        Except.ok (Value.NodeID c.2, r.2.1, c.1)
    else if func = "Saw" then
      match visitArgsF fuel args 0 2 env g with
      | Except.error err => Except.error err
      | Except.ok r =>
        let c := r.2.2.create_saw (r.1.getD 0 Value.Nil).toInput (r.1.getD 1 Value.Nil).toInput
        Except.ok (Value.NodeID c.2, r.2.1, c.1)
    else if func = "Triangle" then
      match visitArgsF fuel args 0 2 env g with
      | Except.error err => Except.error err
      | Except.ok r =>
        let c := r.2.2.create_triangle (r.1.getD 0 Value.Nil).toInput (r.1.getD 1 Value.Nil).toInput
        Except.ok (Value.NodeID c.2, r.2.1, c.1)
    else if func = "Map" then
      match visitArgsF fuel args 0 5 env g with
      | Except.error err => Except.error err
      | Except.ok r =>
        let c := r.2.2.create_map (r.1.getD 0 Value.Nil).toInput
          (r.1.getD 1 Value.Nil).get_number (r.1.getD 2 Value.Nil).get_number
          (r.1.getD 3 Value.Nil).get_number (r.1.getD 4 Value.Nil).get_number
        Except.ok (Value.NodeID c.2, r.2.1, c.1)
    else if func = "Add" then
      match visitArgsF fuel args 0 2 env g with
      | Except.error err => Except.error err
      | Except.ok r =>
        let c := r.2.2.create_add (r.1.getD 0 Value.Nil).toInput (r.1.getD 1 Value.Nil).toInput
        Except.ok (Value.NodeID c.2, r.2.1, c.1)
    else if func = "Sub" then
      match visitArgsF fuel args 0 2 env g with
      | Except.error err => Except.error err
      | Except.ok r =>
        let c := r.2.2.create_sub (r.1.getD 0 Value.Nil).toInput (r.1.getD 1 Value.Nil).toInput
        Except.ok (Value.NodeID c.2, r.2.1, c.1)
    else if func = "Mul" then
      match visitArgsF fuel args 0 2 env g with
      | Except.error err => Except.error err
      | Except.ok r =>
        let c := r.2.2.create_mul (r.1.getD 0 Value.Nil).toInput (r.1.getD 1 Value.Nil).toInput
        Except.ok (Value.NodeID c.2, r.2.1, c.1)
    else if func = "Writer" then
      match visitArgsF fuel args 0 1 env g with
      | Except.error err => Except.error err
      | Except.ok r =>
        match r.1.getD 0 Value.Nil with
        | Value.StoreID id =>
          match visitArgsF fuel args 1 1 r.2.1 r.2.2 with
          | Except.error err => Except.error err
          | Except.ok r2 =>
            let c := r2.2.2.create_writer id (r2.1.getD 0 Value.Nil).toInput
            Except.ok (Value.NodeID c.2, r2.2.1, c.1)
        | _ => Except.error "Invalid Store ID."
    else if func = "Mix" then
      match visitArgsF fuel args 0 3 env g with
      | Except.error err => Except.error err
      | Except.ok r =>
        let c := r.2.2.create_mix (r.1.getD 0 Value.Nil).toInput (r.1.getD 1 Value.Nil).toInput
          (r.1.getD 2 Value.Nil).get_number
        Except.ok (Value.NodeID c.2, r.2.1, c.1)
    else Except.error ("Invalid function: " ++ func)

end

namespace GraphLoader

/-- `GraphLoader::load`: parse the source, build a fresh `NodeGraph` at
44100 Hz, and run `visit` on the program (the fuel bounds expression depth,
which never exceeds the character count of the source). -/
def load (input : String) : Except String NodeGraph :=
  match parseSource input with
  | Except.error e => Except.error e
  | Except.ok prog =>
    match visitF (input.length * 8 + 64) prog [] (NodeGraph.new 44100) with
    | Except.error e => Except.error e
    | Except.ok r => Except.ok r.2.2

end GraphLoader

/-! ## Auxiliary definitions used by the theorem statements -/

/-- The loop state `sample()` has reached just before processing slot `r`:
slots `0, …, r-1` already hold this call's freshly written values, later
slots still hold the previous call's values. -/
def ctxAt (m : MathModel) (g : NodeGraph) (r : ℕ) : SState :=
  passUpto m g.initState r

/-- The structural well-formedness invariant of a `NodeGraph`. -/
def NodeGraph.wf (g : NodeGraph) : Prop :=
  g.outputs.length = g.nodes.length

/-- Erase the running phase of a node (set it to `0`), keeping `phase_step`,
`period` and every other field.  `sample()` changes a node at most up to
`erasePhase`. -/
def Node.erasePhase : Node → Node
  | Node.Saw p f a => Node.Saw (Phase.mk (F32.fin 0) p.phase_step p.period) f a
  | Node.Sine p f a => Node.Sine (Phase.mk (F32.fin 0) p.phase_step p.period) f a
  | Node.Square p f a => Node.Square (Phase.mk (F32.fin 0) p.phase_step p.period) f a
  | Node.Triangle p f a => Node.Triangle (Phase.mk (F32.fin 0) p.phase_step p.period) f a
  | Node.LFO p f => Node.LFO (Phase.mk (F32.fin 0) p.phase_step p.period) f
  | n => n

/-- Is some live node of `g` a `Writer` targeting store slot `j`? -/
def NodeGraph.WritesStore (g : NodeGraph) (j : ℕ) : Prop :=
  ∃ (i : ℕ) (v : Input), g.nodes[i]? = some (Node.Writer j v)

/-- An operand is within the bounds of an outputs buffer of length `olen`
and a store buffer of length `slen`. -/
def Input.Bounded (olen slen : ℕ) : Input → Prop
  | Input.Value _ => True
  | Input.Node id => id < olen
  | Input.Store id => id < slen

/-- All operands (and the `Writer` store target) of a node are in bounds. -/
def Node.InputsBounded (olen slen : ℕ) : Node → Prop
  | Node.Null => True
  | Node.Saw _ f a => f.Bounded olen slen ∧ a.Bounded olen slen
  | Node.Sine _ f a => f.Bounded olen slen ∧ a.Bounded olen slen
  | Node.Square _ f a => f.Bounded olen slen ∧ a.Bounded olen slen
  | Node.Triangle _ f a => f.Bounded olen slen ∧ a.Bounded olen slen
  | Node.LFO _ f => f.Bounded olen slen
  | Node.Map s _ _ _ _ => s.Bounded olen slen
  | Node.Mix a b _ => a.Bounded olen slen ∧ b.Bounded olen slen
  | Node.Add a b => a.Bounded olen slen ∧ b.Bounded olen slen
  | Node.Sub a b => a.Bounded olen slen ∧ b.Bounded olen slen
  | Node.Mul a b => a.Bounded olen slen ∧ b.Bounded olen slen
  | Node.Writer w v => w < slen ∧ v.Bounded olen slen
  | Node.Output i => i.Bounded olen slen

/-- Every live node's operands and the designated output id are in bounds:
the direct indexing done during `sample()` stays inside the buffers. -/
def NodeGraph.Bounded (g : NodeGraph) : Prop :=
  (∀ (i : ℕ) (n : Node), g.nodes[i]? = some n →
      n.InputsBounded g.outputs.length g.store.length) ∧
  (∀ i : ℕ, g.output_node = some i → i < g.outputs.length)

/-- A construction-time `Value`'s reference is live in `g`. -/
def ValueBounded (g : NodeGraph) : Value → Prop
  | Value.NodeID i => i < g.nodes.length
  | Value.StoreID i => i < g.store.length
  | _ => True

/-- Every binding in the loader's environment refers into `g`. -/
def EnvBounded (g : NodeGraph) (env : Env) : Prop :=
  ∀ p ∈ env, ValueBounded g p.2

/-- The invariant `GraphLoader::visit` maintains: well-formed graph, empty
free-list (the loader never deletes), all references in bounds. -/
def LoadInv (g : NodeGraph) : Prop :=
  g.wf ∧ g.dead = [] ∧ g.Bounded

/-- The spec's formula for a Square node's output,
`(phase > period/2 ? 1 : -1) * amp`, taken at its word. -/
def squareSpecValue (phase periodHalf amp : F32) : F32 :=
  F32.mul (if F32.gtb phase periodHalf then F32.fin 1 else F32.fin (-1)) amp

/-- The spec's formula for a Saw node's output, `(phase/period*2 - 1) * amp`,
taken at its word. -/
def sawSpecValue (phase period amp : F32) : F32 :=
  F32.mul (F32.sub (F32.mul (F32.div phase period) (F32.fin 2)) (F32.fin 1)) amp

/-- A `MathModel` with `sin = 0` used to instantiate concrete computations
(none of them touch a `Sine`, `Triangle` or `LFO` node). -/
def mZero : MathModel := MathModel.mk (fun _ => 0)

/-- Run `sample()` `n` times, collecting the emitted values. -/
def sampleSeq (m : MathModel) (g : NodeGraph) : ℕ → List F32 × NodeGraph
  | 0 => ([], g)
  | n + 1 =>
    let r := g.sample m
    let rest := sampleSeq m r.1 n
    (r.2 :: rest.1, rest.2)

/-! ## Concrete graphs used as witnesses and counterexamples -/

/-- Two `Add` nodes: slot 1 reads slot 0 (already fresh) and slot 1 (itself,
i.e. the previous call's value). -/
def gW : NodeGraph :=
  (((NodeGraph.new 1).create_add (Input.Value (F32.fin 2)) (Input.Value (F32.fin 0))).1.create_add
    (Input.Node 0) (Input.Node 1)).1

/-- `gW` with slot 1 deleted. -/
def gWdel : NodeGraph :=
  match gW.delete_node 1 with
  | NodeGraph.DelResult.ok g => g
  | _ => gW

/-- A single `Square` oscillator at sample rate 1 with `freq = 0.25`,
`amp = 1`: its first advanced phase is `π/2 ≈ 1.57`, strictly between the
code's threshold `0.5` and the spec's threshold `period/2 = π`. -/
def C2graph : NodeGraph :=
  ((NodeGraph.new 1).create_square (Input.Value (F32.fin (mkRat 1 4))) (Input.Value (F32.fin 1))).1

/-- A single `Saw` oscillator at sample rate 1 with `freq = 0.25`, `amp = 1`. -/
def C3graph : NodeGraph :=
  ((NodeGraph.new 1).create_saw (Input.Value (F32.fin (mkRat 1 4))) (Input.Value (F32.fin 1))).1

/-- Three `Add` nodes with constant inputs `1`, `2`, `3` (slots 0, 1, 2). -/
def g4pre : NodeGraph :=
  ((((NodeGraph.new 1).create_add (Input.Value (F32.fin 1)) (Input.Value (F32.fin 0))).1.create_add
    (Input.Value (F32.fin 2)) (Input.Value (F32.fin 0))).1.create_add
    (Input.Value (F32.fin 3)) (Input.Value (F32.fin 0))).1

/-- `g4pre` with slot 0 deleted. -/
def g4del : NodeGraph :=
  match g4pre.delete_node 0 with
  | NodeGraph.DelResult.ok g => g
  | _ => g4pre

/-- `g4del` with a fresh `Add` node (constant input `5`) created into the
reused slot 0 — the most recently created node of the graph. -/
def g4a : NodeGraph :=
  (g4del.create_add (Input.Value (F32.fin 5)) (Input.Value (F32.fin 0))).1

/-- The id the creation into `g4del` returns (the reused slot 0). -/
def g4id : ℕ :=
  (g4del.create_add (Input.Value (F32.fin 5)) (Input.Value (F32.fin 0))).2

/-- The initial `Phase` of an oscillator created at sample rate 1
(`Phase::new(2π, 1)`). -/
def phase0 : Phase := Phase.new (F32.mul (F32.fin pi32) (F32.fin 2)) 1

/-- The graph `load "Output(0.0)"` builds. -/
def gOut : NodeGraph :=
  NodeGraph.mk [Node.Output (Input.Value (F32.fin 0))] [] (some 0) 44100 [F32.fin 0] []

/-- `Map(x, 0, 1, -1, 1)` over a constant input `x`. -/
def gMap (x : ℚ) : NodeGraph :=
  ((NodeGraph.new 1).create_map (Input.Value (F32.fin x)) (F32.fin 0) (F32.fin 1)
    (F32.fin (-1)) (F32.fin 1)).1

/-- A degenerate map `Map(3, 1, 1, -1, 1)` (`fromMin == fromMax`). -/
def gMapDeg : NodeGraph :=
  ((NodeGraph.new 1).create_map (Input.Value (F32.fin 3)) (F32.fin 1) (F32.fin 1)
    (F32.fin (-1)) (F32.fin 1)).1

/-! ## Lemmas about one step of the sample loop -/

lemma stepNode_store (m : MathModel) (n : Node) (o s : List F32) :
    (stepNode m n o s).2.2 =
      match n with
      | Node.Writer w v => s.set w (v.sample o s)
      | _ => s := by
  cases n <;> rfl

lemma stepNode_store_length (m : MathModel) (n : Node) (o s : List F32) :
    ((stepNode m n o s).2.2).length = s.length := by
  rw [stepNode_store]; cases n <;> simp

lemma stepNode_erasePhase (m : MathModel) (n : Node) (o s : List F32) :
    ((stepNode m n o s).1).erasePhase = n.erasePhase := by
  cases n <;> rfl

/-! ## Lemmas about the ascending pass of `sample()` -/

lemma passUpto_nodes_length (m : MathModel) (st0 : SState) (r : ℕ) :
    (passUpto m st0 r).nodes.length = st0.nodes.length := by
  induction r with
  | zero => rfl
  | succ r ih => simp [passUpto, sampleStepAt, ih]

lemma passUpto_outputs_length (m : MathModel) (st0 : SState) (r : ℕ) :
    (passUpto m st0 r).outputs.length = st0.outputs.length := by
  induction r with
  | zero => rfl
  | succ r ih => simp [passUpto, sampleStepAt, ih]

lemma passUpto_store_length (m : MathModel) (st0 : SState) (r : ℕ) :
    (passUpto m st0 r).store.length = st0.store.length := by
  induction r with
  | zero => rfl
  | succ r ih => simp [passUpto, sampleStepAt, stepNode_store_length, ih]

/-- Slots the pass has not reached yet still hold the previous call's data. -/
lemma passUpto_nodes_get_ge (m : MathModel) (st0 : SState) (r i : ℕ) (h : r ≤ i) :
    (passUpto m st0 r).nodes[i]? = st0.nodes[i]? := by
  induction r with
  | zero => rfl
  | succ r ih =>
    have hri : r ≠ i := by omega
    have hr : (passUpto m st0 r).nodes[i]? = st0.nodes[i]? := ih (by omega)
    simp [passUpto, sampleStepAt, List.getElem?_set_ne hri, hr]

/-- Outputs of slots the pass has not reached yet are untouched. -/
lemma passUpto_outputs_get_ge (m : MathModel) (st0 : SState) (r i : ℕ) (h : r ≤ i) :
    (passUpto m st0 r).outputs[i]? = st0.outputs[i]? := by
  induction r with
  | zero => rfl
  | succ r ih =>
    have hri : r ≠ i := by omega
    have hr : (passUpto m st0 r).outputs[i]? = st0.outputs[i]? := ih (by omega)
    simp [passUpto, sampleStepAt, List.getElem?_set_ne hri, hr]

/-- An output slot already written is never written again later in the pass
(each slot is written exactly once). -/
lemma passUpto_outputs_get_lt (m : MathModel) (st0 : SState) (r r' i : ℕ)
    (hi : i < r) (hrr : r ≤ r') :
    (passUpto m st0 r').outputs[i]? = (passUpto m st0 r).outputs[i]? := by
  induction r' with
  | zero => exact absurd (lt_of_lt_of_le hi hrr) (by omega)
  | succ r' ih =>
    by_cases h : r = r' + 1
    · subst h; rfl
    · have hir' : r' ≠ i := by omega
      have := ih (by omega)
      simp [passUpto, sampleStepAt, List.getElem?_set_ne hir', this]

/-- Same stability for the node list. -/
lemma passUpto_nodes_get_lt (m : MathModel) (st0 : SState) (r r' i : ℕ)
    (hi : i < r) (hrr : r ≤ r') :
    (passUpto m st0 r').nodes[i]? = (passUpto m st0 r).nodes[i]? := by
  induction r' with
  | zero => exact absurd (lt_of_lt_of_le hi hrr) (by omega)
  | succ r' ih =>
    by_cases h : r = r' + 1
    · subst h; rfl
    · have hir' : r' ≠ i := by omega
      have := ih (by omega)
      simp [passUpto, sampleStepAt, List.getElem?_set_ne hir', this]

/-- Step `r` writes `outputs[r]` with the value its arm computes from the
context reached just before slot `r`. -/
lemma passUpto_outputs_get_succ (m : MathModel) (st0 : SState) (r : ℕ)
    (hr : r < st0.outputs.length) :
    (passUpto m st0 (r + 1)).outputs[r]? =
      some (stepNode m ((passUpto m st0 r).nodes.getD r Node.Null)
        (passUpto m st0 r).outputs (passUpto m st0 r).store).2.1 := by
  have hlen : r < (passUpto m st0 r).outputs.length := by
    rw [passUpto_outputs_length]; exact hr
  simp [passUpto, sampleStepAt, List.getElem?_set_self, hlen]

/-- `sample()`'s updated graph carries the final pass state (the return-value
branch does not change it). -/
lemma sample_fst (m : MathModel) (g : NodeGraph) :
    (NodeGraph.sample m g).1 =
      { g with nodes := (passUpto m g.initState g.nodes.length).nodes,
               outputs := (passUpto m g.initState g.nodes.length).outputs,
               store := (passUpto m g.initState g.nodes.length).store } := by
  unfold NodeGraph.sample
  split <;> rfl

/-- The node examined at step `r` is the original node in slot `r`. -/
lemma ctxAt_node (m : MathModel) (g : NodeGraph) (r : ℕ) :
    (ctxAt m g r).nodes.getD r Node.Null = g.nodes.getD r Node.Null := by
  show (passUpto m g.initState r).nodes.getD r Node.Null = g.nodes.getD r Node.Null
  rw [List.getD_eq_getElem?_getD, List.getD_eq_getElem?_getD,
    passUpto_nodes_get_ge m g.initState r r (le_refl r)]
  rfl

/-- After the call, `outputs[r]` holds exactly the value slot `r`'s arm
computed at step `r`. -/
lemma sample_outputs_at (m : MathModel) (g : NodeGraph) (r : ℕ)
    (hwf : g.wf) (hr : r < g.nodes.length) :
    (NodeGraph.sample m g).1.outputs[r]? =
      some (stepNode m (g.nodes.getD r Node.Null)
        (ctxAt m g r).outputs (ctxAt m g r).store).2.1 := by
  rw [sample_fst]
  have h1 : (passUpto m g.initState g.nodes.length).outputs[r]? =
      (passUpto m g.initState (r + 1)).outputs[r]? :=
    passUpto_outputs_get_lt m g.initState (r + 1) g.nodes.length r (by omega) (by omega)
  have hwf' : g.outputs.length = g.nodes.length := hwf
  have hro : r < g.initState.outputs.length := by
    simpa [NodeGraph.initState, hwf'] using hr
  have h2 := passUpto_outputs_get_succ m g.initState r hro
  show (passUpto m g.initState g.nodes.length).outputs[r]? = _
  rw [h1, h2]
  show some (stepNode m ((ctxAt m g r).nodes.getD r Node.Null)
      (ctxAt m g r).outputs (ctxAt m g r).store).2.1 = _
  rw [ctxAt_node]

/-! ## C1 -/

/-- C1: a `sample()` call writes `outputs[r]` for every slot `r` exactly
once, at step `r` of the ascending pass (first conjunct: the final value of
`outputs[r]` is exactly what slot `r`'s arm computed from the context
reached just before slot `r`).  An `Input::Node(id)` operand resolved at
step `r` reads this call's freshly written value when `id < r` (second
conjunct) and the previous call's value (or the initial `0.0`) when
`id ≥ r` (third conjunct). -/
theorem sample_id_ordered_pass (m : MathModel) (g : NodeGraph) (r : ℕ)
    (hwf : g.wf) (hr : r < g.nodes.length) :
    ((NodeGraph.sample m g).1.outputs[r]? =
      some (stepNode m (g.nodes.getD r Node.Null)
        (ctxAt m g r).outputs (ctxAt m g r).store).2.1) ∧
    (∀ id : ℕ, id < r →
      Input.sample (Input.Node id) (ctxAt m g r).outputs (ctxAt m g r).store =
        (NodeGraph.sample m g).1.outputs.getD id (F32.fin 0)) ∧
    (∀ id : ℕ, r ≤ id →
      Input.sample (Input.Node id) (ctxAt m g r).outputs (ctxAt m g r).store =
        g.outputs.getD id (F32.fin 0)) := by
  refine ⟨sample_outputs_at m g r hwf hr, ?_, ?_⟩
  · intro id hid
    rw [sample_fst]
    show (passUpto m g.initState r).outputs.getD id (F32.fin 0) =
      (passUpto m g.initState g.nodes.length).outputs.getD id (F32.fin 0)
    rw [List.getD_eq_getElem?_getD, List.getD_eq_getElem?_getD,
      passUpto_outputs_get_lt m g.initState (id + 1) r id (by omega) (by omega),
      passUpto_outputs_get_lt m g.initState (id + 1) g.nodes.length id (by omega) (by omega)]
  · intro id hid
    show (passUpto m g.initState r).outputs.getD id (F32.fin 0) =
      g.outputs.getD id (F32.fin 0)
    rw [List.getD_eq_getElem?_getD, List.getD_eq_getElem?_getD,
      passUpto_outputs_get_ge m g.initState r id hid]
    rfl

/-- Witness for C1 on the two-node graph `gW`, at reading slot `r = 1`:
its `Input::Node 0` operand reads the freshly written value `2`, its
`Input::Node 1` operand reads the previous (initial) value `0`. -/
theorem sample_id_ordered_pass_witness :
    gW.wf ∧ 1 < gW.nodes.length ∧
    (Input.sample (Input.Node 0) (ctxAt mZero gW 1).outputs (ctxAt mZero gW 1).store =
      (NodeGraph.sample mZero gW).1.outputs.getD 0 (F32.fin 0)) ∧
    (Input.sample (Input.Node 1) (ctxAt mZero gW 1).outputs (ctxAt mZero gW 1).store =
      gW.outputs.getD 1 (F32.fin 0)) ∧
    (NodeGraph.sample mZero gW).1.outputs.getD 0 (F32.fin 0) = F32.fin 2 ∧
    gW.outputs.getD 1 (F32.fin 0) = F32.fin 0 := by
  have hwf : gW.wf := by show gW.outputs.length = gW.nodes.length; rfl
  have hr : 1 < gW.nodes.length := by decide
  refine ⟨hwf, hr,
    (sample_id_ordered_pass mZero gW 1 hwf hr).2.1 0 (by omega),
    (sample_id_ordered_pass mZero gW 1 hwf hr).2.2 1 (by omega), ?_, ?_⟩ <;>
    decide

/-! ## C10 -/

/-- One loop step changes a node at most up to its running phase. -/
lemma sampleStepAt_nodes_erase (m : MathModel) (st : SState) (i k : ℕ) :
    ((sampleStepAt m st i).nodes[k]?).map Node.erasePhase =
      (st.nodes[k]?).map Node.erasePhase := by
  by_cases hik : i = k
  · subst hik
    by_cases hi : i < st.nodes.length
    · have hsome : st.nodes[i]? = some st.nodes[i] := List.getElem?_eq_getElem hi
      have hgd : st.nodes.getD i Node.Null = st.nodes[i] := by
        rw [List.getD_eq_getElem?_getD, hsome]; rfl
      show ((st.nodes.set i
          (stepNode m (st.nodes.getD i Node.Null) st.outputs st.store).1)[i]?).map
          Node.erasePhase = (st.nodes[i]?).map Node.erasePhase
      simp [List.getElem?_set_self, hi, hsome, hgd, stepNode_erasePhase]
    · show ((st.nodes.set i
          (stepNode m (st.nodes.getD i Node.Null) st.outputs st.store).1)[i]?).map
          Node.erasePhase = (st.nodes[i]?).map Node.erasePhase
      rw [List.set_eq_of_length_le (le_of_not_lt hi)]
  · show ((st.nodes.set i
        (stepNode m (st.nodes.getD i Node.Null) st.outputs st.store).1)[k]?).map
        Node.erasePhase = (st.nodes[k]?).map Node.erasePhase
    rw [List.getElem?_set_ne hik]

/-- The whole pass changes nodes at most up to their running phases. -/
lemma passUpto_nodes_erase (m : MathModel) (st0 : SState) (r : ℕ) :
    ∀ k : ℕ, ((passUpto m st0 r).nodes[k]?).map Node.erasePhase =
      (st0.nodes[k]?).map Node.erasePhase := by
  induction r with
  | zero => intro k; rfl
  | succ r ih =>
    intro k
    show ((sampleStepAt m (passUpto m st0 r) r).nodes[k]?).map Node.erasePhase = _
    rw [sampleStepAt_nodes_erase]
    exact ih k

/-- A store slot targeted by no live `Writer` node is untouched by the pass. -/
lemma passUpto_store_get (m : MathModel) (st0 : SState) (r j : ℕ)
    (hj : ∀ (i w : ℕ) (v : Input), st0.nodes[i]? = some (Node.Writer w v) → w ≠ j) :
    (passUpto m st0 r).store[j]? = st0.store[j]? := by
  induction r with
  | zero => rfl
  | succ r ih =>
    have hnode : (passUpto m st0 r).nodes.getD r Node.Null =
        st0.nodes.getD r Node.Null := by
      rw [List.getD_eq_getElem?_getD, List.getD_eq_getElem?_getD,
        passUpto_nodes_get_ge m st0 r r (le_refl r)]
    show ((stepNode m ((passUpto m st0 r).nodes.getD r Node.Null)
        (passUpto m st0 r).outputs (passUpto m st0 r).store).2.2)[j]? = st0.store[j]?
    rw [hnode, stepNode_store]
    rcases hlt : st0.nodes[r]? with _ | n
    · have h0 : st0.nodes.getD r Node.Null = Node.Null := by
        rw [List.getD_eq_getElem?_getD, hlt]; rfl
      rw [h0]
      exact ih
    · have h0 : st0.nodes.getD r Node.Null = n := by
        rw [List.getD_eq_getElem?_getD, hlt]; rfl
      rw [h0]
      cases n
      case Writer w v =>
        rw [List.getElem?_set_ne (hj r w v hlt)]
        exact ih
      all_goals exact ih

/-- C10: a `sample()` call leaves the free-list, the designated output node,
the sample rate, all three buffer lengths, and every node up to its running
phase unchanged; and every store slot not targeted by a live `Writer` node
keeps its value. -/
theorem sample_frame (m : MathModel) (g : NodeGraph) :
    ((NodeGraph.sample m g).1.dead = g.dead) ∧
    ((NodeGraph.sample m g).1.output_node = g.output_node) ∧
    ((NodeGraph.sample m g).1.sample_rate = g.sample_rate) ∧
    ((NodeGraph.sample m g).1.nodes.length = g.nodes.length) ∧
    ((NodeGraph.sample m g).1.outputs.length = g.outputs.length) ∧
    ((NodeGraph.sample m g).1.store.length = g.store.length) ∧
    (∀ k : ℕ, ((NodeGraph.sample m g).1.nodes[k]?).map Node.erasePhase =
      (g.nodes[k]?).map Node.erasePhase) ∧
    (∀ j : ℕ, ¬ g.WritesStore j →
      (NodeGraph.sample m g).1.store[j]? = g.store[j]?) := by
  rw [sample_fst]
  refine ⟨rfl, rfl, rfl, ?_, ?_, ?_, ?_, ?_⟩
  · exact passUpto_nodes_length m g.initState g.nodes.length
  · exact passUpto_outputs_length m g.initState g.nodes.length
  · exact passUpto_store_length m g.initState g.nodes.length
  · intro k; exact passUpto_nodes_erase m g.initState g.nodes.length k
  · intro j hj
    apply passUpto_store_get
    intro i w v hiv
    rintro rfl
    exact hj ⟨i, v, hiv⟩

/-- Witness for C10 on `gW` (a graph with no `Writer` node): store slot 0 is
untouched and the free-list survives the call. -/
theorem sample_frame_witness :
    (¬ gW.WritesStore 0) ∧
    (NodeGraph.sample mZero gW).1.store[0]? = gW.store[0]? ∧
    (NodeGraph.sample mZero gW).1.dead = gW.dead := by
  have h0 : gW.nodes[0]? =
      some (Node.Add (Input.Value (F32.fin 2)) (Input.Value (F32.fin 0))) := by
    rfl
  have h1 : gW.nodes[1]? = some (Node.Add (Input.Node 0) (Input.Node 1)) := by
    rfl
  have hnw : ¬ gW.WritesStore 0 := by
    rintro ⟨i, v, h⟩
    rcases i with _ | _ | i
    · rw [h0] at h
      exact Node.noConfusion (Option.some.inj h)
    · rw [h1] at h
      exact Node.noConfusion (Option.some.inj h)
    · have hlen : gW.nodes.length ≤ i + 2 := by
        have : gW.nodes.length = 2 := by rfl
        omega
      rw [List.getElem?_eq_none hlen] at h
      exact Option.noConfusion h
  exact ⟨hnw, (sample_frame mZero gW).2.2.2.2.2.2.2 0 hnw, (sample_frame mZero gW).1⟩

/-! ## C2 -/

/-- C2 (amended): a `Square` node's output during `sample()` is
`(advanced phase > 0.5 ? 1 : -1) * amp` — the comparison threshold is the
constant `0.5`, not half the node's period. -/
theorem square_threshold_const (m : MathModel) (g : NodeGraph) (r : ℕ)
    (p : Phase) (freq amp : Input) (hwf : g.wf)
    (hr : g.nodes[r]? = some (Node.Square p freq amp)) :
    (NodeGraph.sample m g).1.outputs[r]? =
      some (F32.mul
        (if F32.gtb (F32.rem (F32.add p.phase (F32.mul p.phase_step
            (freq.sample (ctxAt m g r).outputs (ctxAt m g r).store))) p.period)
            (F32.fin (mkRat 1 2))
          then F32.fin 1 else F32.fin (-1))
        (amp.sample (ctxAt m g r).outputs (ctxAt m g r).store)) := by
  have hlen : r < g.nodes.length := by
    by_contra hcon
    rw [List.getElem?_eq_none (le_of_not_lt hcon)] at hr
    exact Option.noConfusion hr
  have hgd : g.nodes.getD r Node.Null = Node.Square p freq amp := by
    rw [List.getD_eq_getElem?_getD, hr]; rfl
  rw [sample_outputs_at m g r hwf hlen, hgd]
  rfl

/-- Witness for the amended C2 on `C2graph` (slot 0). -/
theorem square_threshold_const_witness :
    (NodeGraph.sample mZero C2graph).1.outputs[0]? =
      some (F32.mul
        (if F32.gtb (F32.rem (F32.add phase0.phase (F32.mul phase0.phase_step
            (Input.sample (Input.Value (F32.fin (mkRat 1 4))) (ctxAt mZero C2graph 0).outputs
              (ctxAt mZero C2graph 0).store))) phase0.period)
            (F32.fin (mkRat 1 2))
          then F32.fin 1 else F32.fin (-1))
        (Input.sample (Input.Value (F32.fin 1)) (ctxAt mZero C2graph 0).outputs
          (ctxAt mZero C2graph 0).store)) := by
  have hwf : C2graph.wf := by
    show C2graph.outputs.length = C2graph.nodes.length
    rfl
  have hr : C2graph.nodes[0]? =
      some (Node.Square phase0 (Input.Value (F32.fin (mkRat 1 4))) (Input.Value (F32.fin 1))) := by
    rfl
  exact square_threshold_const mZero C2graph 0 phase0
    (Input.Value (F32.fin (mkRat 1 4))) (Input.Value (F32.fin 1)) hwf hr

/-- Counterexample to C2 as stated: with period `2π`, frequency input `0.25`
and amplitude `1` at sample rate 1, the advanced phase is `π/2 ≈ 1.57`; the
code outputs `1` (since `π/2 > 0.5`), while the spec's formula
`(phase > period/2 ? 1 : -1) * amp` yields `-1` (since `π/2 < π`). -/
theorem square_spec_formula_cex :
    C2graph.nodes[0]? =
      some (Node.Square phase0 (Input.Value (F32.fin (mkRat 1 4))) (Input.Value (F32.fin 1))) ∧
    phase0.period = F32.mul (F32.fin pi32) (F32.fin 2) ∧
    F32.rem (F32.add phase0.phase (F32.mul phase0.phase_step (F32.fin (mkRat 1 4))))
      phase0.period = F32.fin (mkRat 13176795 8388608) ∧
    F32.div (F32.mul (F32.fin pi32) (F32.fin 2)) (F32.fin 2) = F32.fin pi32 ∧
    squareSpecValue (F32.fin (mkRat 13176795 8388608)) (F32.fin pi32) (F32.fin 1) = F32.fin (-1) ∧
    (NodeGraph.sample mZero C2graph).2 = F32.fin 1 ∧
    (NodeGraph.sample mZero C2graph).2 ≠
      squareSpecValue (F32.fin (mkRat 13176795 8388608)) (F32.fin pi32) (F32.fin 1) := by
  refine ⟨?_, ?_, ?_, ?_, ?_, ?_, ?_⟩ <;> decide

/-! ## C3 -/

/-- C3 (amended): a `Saw` node's output during `sample()` is
`(advanced phase * 2 - 1) * amp` — the advanced phase is *not* divided by
the period before rescaling. -/
theorem saw_not_normalized (m : MathModel) (g : NodeGraph) (r : ℕ)
    (p : Phase) (freq amp : Input) (hwf : g.wf)
    (hr : g.nodes[r]? = some (Node.Saw p freq amp)) :
    (NodeGraph.sample m g).1.outputs[r]? =
      some (F32.mul
        (F32.sub (F32.mul (F32.rem (F32.add p.phase (F32.mul p.phase_step
            (freq.sample (ctxAt m g r).outputs (ctxAt m g r).store))) p.period)
          (F32.fin 2)) (F32.fin 1))
        (amp.sample (ctxAt m g r).outputs (ctxAt m g r).store)) := by
  have hlen : r < g.nodes.length := by
    by_contra hcon
    rw [List.getElem?_eq_none (le_of_not_lt hcon)] at hr
    exact Option.noConfusion hr
  have hgd : g.nodes.getD r Node.Null = Node.Saw p freq amp := by
    rw [List.getD_eq_getElem?_getD, hr]; rfl
  rw [sample_outputs_at m g r hwf hlen, hgd]
  rfl

/-- Witness for the amended C3 on `C3graph` (slot 0). -/
theorem saw_not_normalized_witness :
    (NodeGraph.sample mZero C3graph).1.outputs[0]? =
      some (F32.mul
        (F32.sub (F32.mul (F32.rem (F32.add phase0.phase (F32.mul phase0.phase_step
            (Input.sample (Input.Value (F32.fin (mkRat 1 4))) (ctxAt mZero C3graph 0).outputs
              (ctxAt mZero C3graph 0).store))) phase0.period)
          (F32.fin 2)) (F32.fin 1))
        (Input.sample (Input.Value (F32.fin 1)) (ctxAt mZero C3graph 0).outputs
          (ctxAt mZero C3graph 0).store)) := by
  have hwf : C3graph.wf := by
    show C3graph.outputs.length = C3graph.nodes.length
    rfl
  have hr : C3graph.nodes[0]? =
      some (Node.Saw phase0 (Input.Value (F32.fin (mkRat 1 4))) (Input.Value (F32.fin 1))) := by
    rfl
  exact saw_not_normalized mZero C3graph 0 phase0
    (Input.Value (F32.fin (mkRat 1 4))) (Input.Value (F32.fin 1)) hwf hr

/-- Counterexample to C3 as stated: with period `2π`, frequency input `0.25`
and amplitude `1` at sample rate 1, the advanced phase is `π/2`; the code
outputs `π/2 * 2 - 1 = π - 1 ≈ 2.14`, while the spec's formula
`(phase/period*2 - 1) * amp` yields `-0.5`. -/
theorem saw_spec_formula_cex :
    C3graph.nodes[0]? =
      some (Node.Saw phase0 (Input.Value (F32.fin (mkRat 1 4))) (Input.Value (F32.fin 1))) ∧
    phase0.period = F32.mul (F32.fin pi32) (F32.fin 2) ∧
    F32.rem (F32.add phase0.phase (F32.mul phase0.phase_step (F32.fin (mkRat 1 4))))
      phase0.period = F32.fin (mkRat 13176795 8388608) ∧
    sawSpecValue (F32.fin (mkRat 13176795 8388608)) (F32.mul (F32.fin pi32) (F32.fin 2)) (F32.fin 1) =
      F32.fin (mkRat (-1) 2) ∧
    (NodeGraph.sample mZero C3graph).2 = F32.fin (mkRat 8982491 4194304) ∧
    (NodeGraph.sample mZero C3graph).2 ≠
      sawSpecValue (F32.fin (mkRat 13176795 8388608)) (F32.mul (F32.fin pi32) (F32.fin 2)) (F32.fin 1) := by
  refine ⟨?_, ?_, ?_, ?_, ?_, ?_⟩ <;> decide

/-! ## C4 -/

/-- The value `sample()` returns for a non-empty graph. -/
lemma sample_snd (m : MathModel) (g : NodeGraph) (hne : g.nodes ≠ []) :
    (NodeGraph.sample m g).2 =
      (passUpto m g.initState g.nodes.length).outputs.getD
        (g.output_node.getD (g.nodes.length - 1)) (F32.fin 0) := by
  have hie : g.nodes.isEmpty = false := by
    cases hh : g.nodes with
    | nil => exact absurd hh hne
    | cons a l => rfl
  unfold NodeGraph.sample
  simp [hie]

/-- The value `sample()` returns for the empty graph. -/
lemma sample_snd_empty (m : MathModel) (g : NodeGraph) (he : g.nodes = []) :
    (NodeGraph.sample m g).2 = F32.fin 0 := by
  unfold NodeGraph.sample
  simp [he]

/-- C4 (amended): with no designated output node, `sample()` returns the
value of the *last slot* (`outputs[nodes.len() - 1]`), not the most recently
created node — the two differ when the most recent creation reused a freed
lower slot; the empty graph yields `0.0`. -/
theorem sample_fallback_last_slot (m : MathModel) (g : NodeGraph)
    (h : g.output_node = none) :
    (g.nodes = [] → (NodeGraph.sample m g).2 = F32.fin 0) ∧
    (g.nodes ≠ [] → (NodeGraph.sample m g).2 =
      (NodeGraph.sample m g).1.outputs.getD (g.nodes.length - 1) (F32.fin 0)) := by
  constructor
  · intro he; exact sample_snd_empty m g he
  · intro hne
    rw [sample_snd m g hne, sample_fst, h]
    rfl

/-- Witness for the amended C4 on `g4a` (no `Output` node): the returned
sample is the last slot's output. -/
theorem sample_fallback_last_slot_witness :
    g4a.output_node = none ∧ g4a.nodes ≠ [] ∧
    (NodeGraph.sample mZero g4a).2 =
      (NodeGraph.sample mZero g4a).1.outputs.getD (g4a.nodes.length - 1) (F32.fin 0) := by
  have h : g4a.output_node = none := by decide
  have hne : g4a.nodes ≠ [] := by decide
  exact ⟨h, hne, (sample_fallback_last_slot mZero g4a h).2 hne⟩

/-- Counterexample to C4 as stated: in `g4a` the most recently created node
went into the reused slot 0 (`g4id = 0`) and outputs `5`, but `sample()`
returns the last slot's value `3`. -/
theorem sample_fallback_cex :
    g4pre.delete_node 0 = NodeGraph.DelResult.ok g4del ∧
    g4id = 0 ∧
    g4a.output_node = none ∧
    g4a.nodes.length = 3 ∧
    g4a.nodes[0]? = some (Node.Add (Input.Value (F32.fin 5)) (Input.Value (F32.fin 0))) ∧
    (NodeGraph.sample mZero g4a).1.outputs.getD 0 (F32.fin 0) = F32.fin 5 ∧
    (NodeGraph.sample mZero g4a).2 = F32.fin 3 ∧
    (NodeGraph.sample mZero g4a).2 ≠
      (NodeGraph.sample mZero g4a).1.outputs.getD g4id (F32.fin 0) := by
  refine ⟨?_, ?_, ?_, ?_, ?_, ?_, ?_, ?_⟩ <;> decide

/-! ## Bridge lemmas: the numerator/denominator arithmetic agrees with ℚ -/

lemma qneg_eq_neg (a : ℚ) : qneg a = -a := by
  unfold qneg
  rw [Rat.mkRat_eq_div]
  conv_rhs => rw [← Rat.num_div_den a]
  push_cast
  rw [neg_div]

lemma qadd_eq_add (a b : ℚ) : qadd a b = a + b := by
  unfold qadd
  rw [Rat.mkRat_eq_div]
  have ha : ((a.den : ℚ)) ≠ 0 := Nat.cast_ne_zero.mpr (Rat.den_ne_zero a)
  have hb : ((b.den : ℚ)) ≠ 0 := Nat.cast_ne_zero.mpr (Rat.den_ne_zero b)
  conv_rhs => rw [← Rat.num_div_den a, ← Rat.num_div_den b]
  push_cast
  field_simp

lemma qsub_eq_sub (a b : ℚ) : qsub a b = a - b := by
  unfold qsub
  rw [qadd_eq_add, qneg_eq_neg]
  exact (sub_eq_add_neg a b).symm

lemma qmul_eq_mul (a b : ℚ) : qmul a b = a * b := by
  unfold qmul
  rw [Rat.mkRat_eq_div]
  have ha : ((a.den : ℚ)) ≠ 0 := Nat.cast_ne_zero.mpr (Rat.den_ne_zero a)
  have hb : ((b.den : ℚ)) ≠ 0 := Nat.cast_ne_zero.mpr (Rat.den_ne_zero b)
  conv_rhs => rw [← Rat.num_div_den a, ← Rat.num_div_den b]
  push_cast
  field_simp

lemma qdiv_eq_div (a b : ℚ) : qdiv a b = a / b := by
  rcases eq_or_ne b 0 with hb | hb
  · subst hb
    unfold qdiv
    norm_num
  · have hbn : b.num ≠ 0 := Rat.num_ne_zero.mpr hb
    have ha : ((a.den : ℚ)) ≠ 0 := Nat.cast_ne_zero.mpr (Rat.den_ne_zero a)
    have hd : ((b.den : ℚ)) ≠ 0 := Nat.cast_ne_zero.mpr (Rat.den_ne_zero b)
    have hq : ((b.num : ℚ)) ≠ 0 := Int.cast_ne_zero.mpr hbn
    unfold qdiv
    rw [Rat.mkRat_eq_div]
    conv_rhs => rw [← Rat.num_div_den a, ← Rat.num_div_den b]
    rcases lt_or_gt_of_ne hbn with hneg | hpos
    · rw [Int.sign_eq_neg_one_of_neg hneg]
      have habs : ((b.num.natAbs : ℕ) : ℚ) = -(b.num : ℚ) := by
        rw [Int.cast_natAbs, abs_of_neg hneg]
        exact Int.cast_neg b.num
      push_cast
      rw [habs]
      field_simp
    · rw [Int.sign_eq_one_of_pos hpos]
      have habs : ((b.num.natAbs : ℕ) : ℚ) = (b.num : ℚ) := by
        rw [Int.cast_natAbs, abs_of_pos hpos]
      push_cast
      rw [habs]
      field_simp

/-! ## C7 -/

/-- `x - x` is `0` for finite `x` and NaN otherwise. -/
lemma F32.sub_self_zero_or_nan (a : F32) :
    F32.sub a a = F32.fin 0 ∨ F32.sub a a = F32.nan := by
  cases a with
  | fin q =>
    left
    show F32.fin (qadd q (qneg q)) = F32.fin 0
    rw [qadd_eq_add, qneg_eq_neg]
    norm_num
  | inf => right; rfl
  | ninf => right; rfl
  | nan => right; rfl

/-- Dividing by `0` or NaN never yields a finite value. -/
lemma F32.div_degenerate_not_finite (x d : F32) (hd : d = F32.fin 0 ∨ d = F32.nan) :
    (F32.div x d).isFinite = false := by
  rcases hd with h | h
  · subst h
    cases x with
    | fin a =>
      show (if (0:ℚ) = 0 then (if a = 0 then F32.nan else if 0 < a then F32.inf else F32.ninf)
        else F32.fin (qdiv a 0)).isFinite = false
      rw [if_pos rfl]
      split_ifs <;> rfl
    | inf =>
      show (if (0:ℚ) ≤ 0 then F32.inf else F32.ninf).isFinite = false
      rw [if_pos le_rfl]
      rfl
    | ninf =>
      show (if (0:ℚ) ≤ 0 then F32.ninf else F32.inf).isFinite = false
      rw [if_pos le_rfl]
      rfl
    | nan => rfl
  · subst h
    cases x <;> rfl

/-- Multiplying a non-finite value never yields a finite value. -/
lemma F32.mul_not_finite_left (x y : F32) (hx : x.isFinite = false) :
    (F32.mul x y).isFinite = false := by
  cases x with
  | fin q => exact absurd hx (by simp [F32.isFinite])
  | inf =>
    cases y with
    | fin b =>
      show (if b = 0 then F32.nan else if 0 < b then F32.inf else F32.ninf).isFinite = false
      split_ifs <;> rfl
    | inf => rfl
    | ninf => rfl
    | nan => rfl
  | ninf =>
    cases y with
    | fin b =>
      show (if b = 0 then F32.nan else if 0 < b then F32.ninf else F32.inf).isFinite = false
      split_ifs <;> rfl
    | inf => rfl
    | ninf => rfl
    | nan => rfl
  | nan => cases y <;> rfl

/-- Adding to a non-finite value never yields a finite value. -/
lemma F32.add_not_finite_left (x y : F32) (hx : x.isFinite = false) :
    (F32.add x y).isFinite = false := by
  cases x with
  | fin q => exact absurd hx (by simp [F32.isFinite])
  | inf => cases y <;> rfl
  | ninf => cases y <;> rfl
  | nan => cases y <;> rfl

/-- C7: a `Map` node computes `norm = (x - fromMin)/(fromMax - fromMin)`,
`out = norm*(toMax - toMin) + toMin` (first conjunct); `Map(x,0,1,-1,1)`
sends `0 ↦ -1`, `0.5 ↦ 0`, `1 ↦ 1` (middle conjuncts); and when
`fromMin == fromMax` the division by zero is not special-cased, so the
output is an infinity or NaN (last conjunct). -/
theorem map_rescale_and_degenerate :
    (∀ (m : MathModel) (g : NodeGraph) (r : ℕ) (s : Input) (fm fM tm tM : F32),
      g.wf → g.nodes[r]? = some (Node.Map s fm fM tm tM) →
      (NodeGraph.sample m g).1.outputs[r]? =
        some (F32.add (F32.mul (F32.div (F32.sub (s.sample (ctxAt m g r).outputs
          (ctxAt m g r).store) fm) (F32.sub fM fm)) (F32.sub tM tm)) tm)) ∧
    (NodeGraph.sample mZero (gMap 0)).2 = F32.fin (-1) ∧
    (NodeGraph.sample mZero (gMap (mkRat 1 2))).2 = F32.fin 0 ∧
    (NodeGraph.sample mZero (gMap 1)).2 = F32.fin 1 ∧
    (∀ (m : MathModel) (g : NodeGraph) (r : ℕ) (s : Input) (fm tm tM : F32),
      g.wf → g.nodes[r]? = some (Node.Map s fm fm tm tM) →
      ∃ v : F32, (NodeGraph.sample m g).1.outputs[r]? = some v ∧ v.isFinite = false) := by
  refine ⟨?_, by decide, by decide, by decide, ?_⟩
  · intro m g r s fm fM tm tM hwf hr
    have hlen : r < g.nodes.length := by
      by_contra hcon
      rw [List.getElem?_eq_none (le_of_not_lt hcon)] at hr
      exact Option.noConfusion hr
    have hgd : g.nodes.getD r Node.Null = Node.Map s fm fM tm tM := by
      rw [List.getD_eq_getElem?_getD, hr]; rfl
    rw [sample_outputs_at m g r hwf hlen, hgd]
    rfl
  · intro m g r s fm tm tM hwf hr
    have hlen : r < g.nodes.length := by
      by_contra hcon
      rw [List.getElem?_eq_none (le_of_not_lt hcon)] at hr
      exact Option.noConfusion hr
    have hgd : g.nodes.getD r Node.Null = Node.Map s fm fm tm tM := by
      rw [List.getD_eq_getElem?_getD, hr]; rfl
    refine ⟨(stepNode m (Node.Map s fm fm tm tM)
        (ctxAt m g r).outputs (ctxAt m g r).store).2.1, ?_, ?_⟩
    · rw [sample_outputs_at m g r hwf hlen, hgd]
    · show (F32.add (F32.mul (F32.div (F32.sub (Input.sample s (ctxAt m g r).outputs
          (ctxAt m g r).store) fm) (F32.sub fm fm)) (F32.sub tM tm)) tm).isFinite = false
      apply F32.add_not_finite_left
      apply F32.mul_not_finite_left
      exact F32.div_degenerate_not_finite _ _ (F32.sub_self_zero_or_nan fm)

/-- Witness for C7: the degenerate map `gMapDeg` (`fromMin == fromMax == 1`)
produces a non-finite output (it is `inf`), and the rescale formula holds at
`gMap 0`. -/
theorem map_rescale_and_degenerate_witness :
    gMapDeg.wf ∧
    gMapDeg.nodes[0]? = some (Node.Map (Input.Value (F32.fin 3)) (F32.fin 1) (F32.fin 1)
      (F32.fin (-1)) (F32.fin 1)) ∧
    (∃ v : F32, (NodeGraph.sample mZero gMapDeg).1.outputs[0]? = some v ∧
      v.isFinite = false) ∧
    (NodeGraph.sample mZero gMapDeg).2 = F32.inf ∧
    (gMap 0).wf ∧
    (gMap 0).nodes[0]? = some (Node.Map (Input.Value (F32.fin 0)) (F32.fin 0) (F32.fin 1)
      (F32.fin (-1)) (F32.fin 1)) ∧
    (NodeGraph.sample mZero (gMap 0)).1.outputs[0]? =
      some (F32.add (F32.mul (F32.div (F32.sub (Input.sample (Input.Value (F32.fin 0))
        (ctxAt mZero (gMap 0) 0).outputs (ctxAt mZero (gMap 0) 0).store) (F32.fin 0))
        (F32.sub (F32.fin 1) (F32.fin 0))) (F32.sub (F32.fin 1) (F32.fin (-1))))
        (F32.fin (-1))) := by
  have hwfD : gMapDeg.wf := by
    show gMapDeg.outputs.length = gMapDeg.nodes.length
    rfl
  have hrD : gMapDeg.nodes[0]? = some (Node.Map (Input.Value (F32.fin 3)) (F32.fin 1)
      (F32.fin 1) (F32.fin (-1)) (F32.fin 1)) := by decide
  have hwf0 : (gMap 0).wf := by
    show (gMap 0).outputs.length = (gMap 0).nodes.length
    rfl
  have hr0 : (gMap 0).nodes[0]? = some (Node.Map (Input.Value (F32.fin 0)) (F32.fin 0)
      (F32.fin 1) (F32.fin (-1)) (F32.fin 1)) := by decide
  exact ⟨hwfD, hrD,
    map_rescale_and_degenerate.2.2.2.2 mZero gMapDeg 0 (Input.Value (F32.fin 3))
      (F32.fin 1) (F32.fin (-1)) (F32.fin 1) hwfD hrD,
    by decide, hwf0, hr0,
    map_rescale_and_degenerate.1 mZero (gMap 0) 0 (Input.Value (F32.fin 0))
      (F32.fin 0) (F32.fin 1) (F32.fin (-1)) (F32.fin 1) hwf0 hr0⟩

/-! ## C5 -/

/-- C5: the token stream of `"Output(x) Output(y)"` conforms to the spec's
grammar (`program := statement* EOF`, `statement := factor ('=' factor)?`),
yet `Parser::parse` aborts with a syntax error: the unconditional
`advance()` after a non-assignment statement (src/parser.rs line 258)
swallows the next statement's leading identifier.  A single fire-and-forget
call statement parses (second conjunct), so the failure is precisely the
statement juxtaposition. -/
theorem parse_two_call_statements_fails :
    parseSource "Output(x) Output(y)" = Except.error "Syntax error" ∧
    parseSource "Output(x)" =
      Except.ok (Expr.Program [Expr.Call "Output" [Expr.Identifier "x"]]) := by
  constructor <;> rfl

/-! ## C6 -/

/-- C6: deleting a live id succeeds and nulls the slot; deleting it again
returns the recoverable error; the next creation reuses exactly that id
(leaving the free-list empty, with no new slot appended), after which a
further creation appends a fresh slot at the end. -/
theorem delete_then_reuse (g : NodeGraph) (id : ℕ) (freq amp freq' amp' : Input)
    (hid : id < g.nodes.length) (hdead : g.dead = []) :
    ∃ g1 : NodeGraph,
      g.delete_node id = NodeGraph.DelResult.ok g1 ∧
      g1.nodes[id]? = some Node.Null ∧
      g1.delete_node id = NodeGraph.DelResult.err "Node doesn't exist" ∧
      (g1.create_sine freq amp).2 = id ∧
      (g1.create_sine freq amp).1.nodes.length = g.nodes.length ∧
      (g1.create_sine freq amp).1.dead = [] ∧
      ((g1.create_sine freq amp).1.create_sine freq' amp').2 =
        (g1.create_sine freq amp).1.nodes.length ∧
      ((g1.create_sine freq amp).1.create_sine freq' amp').1.nodes.length =
        g.nodes.length + 1 := by
  refine ⟨{ g with nodes := g.nodes.set id Node.Null, dead := [id] },
    ?_, ?_, ?_, ?_, ?_, ?_, ?_, ?_⟩
  · unfold NodeGraph.delete_node
    rw [hdead]
    simp [hid]
  · simp [List.getElem?_set_self, hid]
  · unfold NodeGraph.delete_node
    simp
  · simp [NodeGraph.create_sine, NodeGraph.add_node, List.getLastD]
  · simp [NodeGraph.create_sine, NodeGraph.add_node, List.getLastD]
  · simp [NodeGraph.create_sine, NodeGraph.add_node]
  · simp [NodeGraph.create_sine, NodeGraph.add_node, List.getLastD]
  · simp [NodeGraph.create_sine, NodeGraph.add_node, List.getLastD]

/-- Witness for C6 on `gW`, deleting id 1. -/
theorem delete_then_reuse_witness :
    1 < gW.nodes.length ∧ gW.dead = [] ∧
    (∃ g1 : NodeGraph,
      gW.delete_node 1 = NodeGraph.DelResult.ok g1 ∧
      g1.nodes[1]? = some Node.Null ∧
      g1.delete_node 1 = NodeGraph.DelResult.err "Node doesn't exist" ∧
      (g1.create_sine (Input.Value (F32.fin 1)) (Input.Value (F32.fin 1))).2 = 1 ∧
      (g1.create_sine (Input.Value (F32.fin 1)) (Input.Value (F32.fin 1))).1.nodes.length =
        gW.nodes.length ∧
      (g1.create_sine (Input.Value (F32.fin 1)) (Input.Value (F32.fin 1))).1.dead = [] ∧
      ((g1.create_sine (Input.Value (F32.fin 1)) (Input.Value (F32.fin 1))).1.create_sine
        (Input.Value (F32.fin 2)) (Input.Value (F32.fin 2))).2 =
        (g1.create_sine (Input.Value (F32.fin 1)) (Input.Value (F32.fin 1))).1.nodes.length ∧
      ((g1.create_sine (Input.Value (F32.fin 1)) (Input.Value (F32.fin 1))).1.create_sine
        (Input.Value (F32.fin 2)) (Input.Value (F32.fin 2))).1.nodes.length =
        gW.nodes.length + 1) :=
  ⟨by decide, rfl,
    delete_then_reuse gW 1 (Input.Value (F32.fin 1)) (Input.Value (F32.fin 1))
      (Input.Value (F32.fin 2)) (Input.Value (F32.fin 2)) (by decide) rfl⟩

/-! ## C8 -/

/-- C8: the whole pipeline is a pure function of the source text (and of the
`sin` interpretation): two runs that each build a graph from the same text
via `GraphLoader::load` obtain the same graph, and `N` subsequent `sample()`
calls produce identical output sequences. -/
theorem load_sample_deterministic (m : MathModel) (src : String) (n : ℕ)
    (g1 g2 : NodeGraph) (h1 : GraphLoader.load src = Except.ok g1)
    (h2 : GraphLoader.load src = Except.ok g2) :
    g1 = g2 ∧ sampleSeq m g1 n = sampleSeq m g2 n := by
  have hg : g1 = g2 := by
    rw [h1] at h2
    exact Except.ok.inj h2
  exact ⟨hg, by rw [hg]⟩

/-- Convert a decidable `toOption` evaluation into an `Except.ok` equation. -/
lemma eq_ok_of_toOption {e : Except String NodeGraph} {b : NodeGraph}
    (h : e.toOption = some b) : e = Except.ok b := by
  cases e with
  | error a => exact Option.noConfusion h
  | ok a => exact congrArg Except.ok (Option.some.inj h)

/-- Witness for C8 on `"Output(0.0)"`. -/
theorem load_sample_deterministic_witness :
    GraphLoader.load "Output(0.0)" = Except.ok gOut ∧
    gOut = gOut ∧ sampleSeq mZero gOut 3 = sampleSeq mZero gOut 3 := by
  have h : GraphLoader.load "Output(0.0)" = Except.ok gOut :=
    eq_ok_of_toOption (by decide)
  exact ⟨h, load_sample_deterministic mZero "Output(0.0)" 3 gOut gOut h h⟩

/-! ## C9: supporting lemmas -/

lemma Input.Bounded_mono {olen slen olen' slen' : ℕ} (ho : olen ≤ olen')
    (hs : slen ≤ slen') (i : Input) (h : i.Bounded olen slen) :
    i.Bounded olen' slen' := by
  cases i <;> simp [Input.Bounded] at h ⊢ <;> omega

lemma Node.InputsBounded_mono {olen slen olen' slen' : ℕ} (ho : olen ≤ olen')
    (hs : slen ≤ slen') (n : Node) (h : n.InputsBounded olen slen) :
    n.InputsBounded olen' slen' := by
  cases n <;> simp [Node.InputsBounded] at h ⊢ <;>
    first
    | exact Input.Bounded_mono ho hs _ h
    | exact ⟨Input.Bounded_mono ho hs _ h.1, Input.Bounded_mono ho hs _ h.2⟩
    | exact ⟨by omega, Input.Bounded_mono ho hs _ h.2⟩

lemma ValueBounded_mono {g g' : NodeGraph} (hn : g.nodes.length ≤ g'.nodes.length)
    (hs : g.store.length ≤ g'.store.length) (v : Value) (h : ValueBounded g v) :
    ValueBounded g' v := by
  cases v <;> simp [ValueBounded] at h ⊢ <;> omega

lemma EnvBounded_mono {g g' : NodeGraph} (hn : g.nodes.length ≤ g'.nodes.length)
    (hs : g.store.length ≤ g'.store.length) (env : Env) (h : EnvBounded g env) :
    EnvBounded g' env :=
  fun p hp => ValueBounded_mono hn hs p.2 (h p hp)

/-- A `Value` converted to an `Input` is bounded for a graph one output slot
larger (the slot the node is about to occupy). -/
lemma toInput_bounded (g : NodeGraph) (v : Value) (hwf : g.wf)
    (hv : ValueBounded g v) :
    (v.toInput).Bounded (g.outputs.length + 1) g.store.length := by
  have hwf' : g.outputs.length = g.nodes.length := hwf
  cases v <;> simp [Value.toInput, Input.Bounded, ValueBounded] at hv ⊢ <;> omega

/-- A default-read from a list of bounded values is bounded. -/
lemma getD_valueBounded (g : NodeGraph) (vs : List Value) (j : ℕ)
    (h : ∀ v ∈ vs, ValueBounded g v) : ValueBounded g (vs.getD j Value.Nil) := by
  rcases hj : vs[j]? with _ | v
  · rw [List.getD_eq_getElem?_getD, hj]
    trivial
  · rw [List.getD_eq_getElem?_getD, hj]
    rcases List.getElem?_eq_some.mp hj with ⟨hlt, rfl⟩
    exact h _ (List.getElem_mem hlt)

/-- `envGet` only returns bounded values from a bounded environment. -/
lemma envGet_bounded (g : NodeGraph) (env : Env) (k : String) (v : Value)
    (henv : EnvBounded g env) (h : envGet env k = some v) : ValueBounded g v := by
  unfold envGet at h
  rcases hf : List.find? (fun p => p.1 == k) env with _ | p
  · rw [hf] at h
    exact Option.noConfusion h
  · rw [hf] at h
    have hm : p ∈ env := List.mem_of_find?_eq_some hf
    have : p.2 = v := Option.some.inj h
    exact this ▸ henv p hm

/-- `envSet` with a bounded value keeps the environment bounded. -/
lemma envSet_bounded (g : NodeGraph) (env : Env) (k : String) (v : Value)
    (henv : EnvBounded g env) (hv : ValueBounded g v) :
    EnvBounded g (envSet env k v) := by
  intro p hp
  unfold envSet at hp
  by_cases hc : List.any env (fun p => p.1 == k)
  · rw [if_pos hc] at hp
    rcases List.mem_map.mp hp with ⟨q, hq, hqe⟩
    by_cases hqk : q.1 == k
    · rw [if_pos hqk] at hqe
      rw [← hqe]
      exact hv
    · rw [if_neg hqk] at hqe
      rw [← hqe]
      exact henv q hq
  · rw [if_neg hc, List.concat_eq_append] at hp
    rcases List.mem_append.mp hp with hq | hq
    · exact henv p hq
    · rcases List.mem_singleton.mp hq with rfl
      exact hv

/-- What `add_node` does to a graph whose free-list is empty: append the node
and a zeroed output slot, and return the fresh last id. -/
lemma add_node_empty_dead (g : NodeGraph) (n : Node) (hdead : g.dead = []) :
    g.add_node n =
      ({ g with nodes := g.nodes ++ [n], outputs := g.outputs ++ [F32.fin 0] },
        g.nodes.length) := by
  unfold NodeGraph.add_node
  rw [hdead]
  rfl

/-- `add_node` preserves the loader invariant when the added node's operands
are bounded for the extended graph. -/
lemma add_node_loadInv (g : NodeGraph) (n : Node) (hinv : LoadInv g)
    (hn : n.InputsBounded (g.outputs.length + 1) g.store.length) :
    LoadInv (g.add_node n).1 ∧ (g.add_node n).2 = g.nodes.length ∧
      (g.add_node n).1.nodes.length = g.nodes.length + 1 ∧
      (g.add_node n).1.outputs.length = g.outputs.length + 1 ∧
      (g.add_node n).1.store = g.store ∧
      (g.add_node n).1.output_node = g.output_node := by
  obtain ⟨hwf, hdead, hb⟩ := hinv
  have hwf' : g.outputs.length = g.nodes.length := hwf
  rw [add_node_empty_dead g n hdead]
  refine ⟨⟨?_, hdead, ?_, ?_⟩, rfl, by simp, by simp, rfl, rfl⟩
  · show (g.outputs ++ [F32.fin 0]).length = (g.nodes ++ [n]).length
    simp [hwf']
  · intro i m hi
    have hi' : (g.nodes ++ [n])[i]? = some m := hi
    show m.InputsBounded (g.outputs ++ [F32.fin 0]).length g.store.length
    rcases lt_trichotomy i g.nodes.length with hlt | heq | hgt
    · rw [List.getElem?_append, if_pos hlt] at hi'
      have := hb.1 i m hi'
      exact Node.InputsBounded_mono (by simp) (le_refl _) m this
    · subst heq
      have hnth : (g.nodes ++ [n])[g.nodes.length]? = some n := by simp
      rw [hnth] at hi'
      have hm : n = m := Option.some.inj hi'
      rw [← hm]
      exact Node.InputsBounded_mono (by simp [hwf']) (le_refl _) n hn
    · have hnone : (g.nodes ++ [n])[i]? = none := by
        apply List.getElem?_eq_none
        simp
        omega
      rw [hnone] at hi'
      exact Option.noConfusion hi'
  · intro i hi
    have hi' : g.output_node = some i := hi
    have := hb.2 i hi'
    show i < (g.outputs ++ [F32.fin 0]).length
    simp
    omega

/-- Packaged invariant step for the ten plain `create_*` call arms. -/
lemma createNode_inv (g g1 : NodeGraph) (env1 : Env) (N : Node)
    (hinv1 : LoadInv g1) (henv1 : EnvBounded g1 env1)
    (hmono_n : g.nodes.length ≤ g1.nodes.length)
    (hmono_s : g.store.length ≤ g1.store.length)
    (hN : N.InputsBounded (g1.outputs.length + 1) g1.store.length) :
    LoadInv (g1.add_node N).1 ∧ EnvBounded (g1.add_node N).1 env1 ∧
    ValueBounded (g1.add_node N).1 (Value.NodeID (g1.add_node N).2) ∧
    g.nodes.length ≤ (g1.add_node N).1.nodes.length ∧
    g.store.length ≤ (g1.add_node N).1.store.length := by
  obtain ⟨hinvA, hid, hlen, holen, hstore, hout⟩ := add_node_loadInv g1 N hinv1 hN
  refine ⟨hinvA, EnvBounded_mono (by omega) (by rw [hstore]) env1 henv1, ?_,
    by omega, by rw [hstore]; exact hmono_s⟩
  show (g1.add_node N).2 < (g1.add_node N).1.nodes.length
  rw [hid, hlen]
  omega

/-- The invariant statement for `visitF` at a given fuel. -/
def VisitInvF (fuel : ℕ) : Prop :=
  ∀ (e : Expr) (env : Env) (g : NodeGraph) (v : Value) (env' : Env) (g' : NodeGraph),
    visitF fuel e env g = Except.ok (v, env', g') → LoadInv g → EnvBounded g env →
    LoadInv g' ∧ EnvBounded g' env' ∧ ValueBounded g' v ∧
    g.nodes.length ≤ g'.nodes.length ∧ g.store.length ≤ g'.store.length

/-- The invariant statement for `visitListF`. -/
def VisitInvList (fuel : ℕ) : Prop :=
  ∀ (es : List Expr) (env : Env) (g : NodeGraph) (env' : Env) (g' : NodeGraph),
    visitListF fuel es env g = Except.ok (env', g') → LoadInv g → EnvBounded g env →
    LoadInv g' ∧ EnvBounded g' env' ∧
    g.nodes.length ≤ g'.nodes.length ∧ g.store.length ≤ g'.store.length

/-- The invariant statement for `visitArgsF`. -/
def VisitInvArgs (fuel : ℕ) : Prop :=
  ∀ (args : List Expr) (i count : ℕ) (env : Env) (g : NodeGraph)
    (vs : List Value) (env' : Env) (g' : NodeGraph),
    visitArgsF fuel args i count env g = Except.ok (vs, env', g') →
    LoadInv g → EnvBounded g env →
    LoadInv g' ∧ EnvBounded g' env' ∧ (∀ v ∈ vs, ValueBounded g' v) ∧
    g.nodes.length ≤ g'.nodes.length ∧ g.store.length ≤ g'.store.length

/-- The invariant statement for `visitCallF`. -/
def VisitInvCall (fuel : ℕ) : Prop :=
  ∀ (func : String) (args : List Expr) (env : Env) (g : NodeGraph)
    (v : Value) (env' : Env) (g' : NodeGraph),
    visitCallF fuel func args env g = Except.ok (v, env', g') →
    LoadInv g → EnvBounded g env →
    LoadInv g' ∧ EnvBounded g' env' ∧ ValueBounded g' v ∧
    g.nodes.length ≤ g'.nodes.length ∧ g.store.length ≤ g'.store.length

/-- Extending the store by one zeroed slot keeps the loader invariant. -/
lemma store_extend_loadInv (g : NodeGraph) (hinv : LoadInv g) :
    LoadInv { g with store := g.store ++ [F32.fin 0] } := by
  obtain ⟨hwf, hdead, hb⟩ := hinv
  refine ⟨hwf, hdead, ?_, ?_⟩
  · intro i m hi
    have hi' : g.nodes[i]? = some m := hi
    have := hb.1 i m hi'
    exact Node.InputsBounded_mono (le_refl _) (by simp) m this
  · intro i hi
    have hi' : g.output_node = some i := hi
    exact hb.2 i hi'

/-! Unfolding equations (definitional) used to reason about the visit
functions one step at a time. -/

lemma visitArgsF_succ (fuel : ℕ) (args : List Expr) (i count : ℕ) (env : Env)
    (g : NodeGraph) :
    visitArgsF (fuel + 1) args i (count + 1) env g =
      match args.get? i with
      | none => Except.error "index out of bounds"
      | some a =>
        match visitF fuel a env g with
        | Except.error err => Except.error err
        | Except.ok r =>
          match visitArgsF fuel args (i + 1) count r.2.1 r.2.2 with
          | Except.error err => Except.error err
          | Except.ok r2 => Except.ok (r.1 :: r2.1, r2.2.1, r2.2.2) := rfl

lemma visitListF_cons (fuel : ℕ) (e : Expr) (rest : List Expr) (env : Env)
    (g : NodeGraph) :
    visitListF (fuel + 1) (e :: rest) env g =
      match visitF fuel e env g with
      | Except.error err => Except.error err
      | Except.ok r => visitListF fuel rest r.2.1 r.2.2 := rfl

lemma visitF_identifier (fuel : ℕ) (s : String) (env : Env) (g : NodeGraph) :
    visitF (fuel + 1) (Expr.Identifier s) env g =
      match envGet env s with
      | none => Except.ok (Value.Nil, envSet env s Value.Nil, g)
      | some v => Except.ok (v, env, g) := rfl

lemma visitF_assign_ident (fuel : ℕ) (nam : String) (b : Expr) (env : Env)
    (g : NodeGraph) :
    visitF (fuel + 1) (Expr.Assign (Expr.Identifier nam) b) env g =
      match visitF fuel b env g with
      | Except.error err => Except.error err
      | Except.ok r => Except.ok (Value.Nil, envSet r.2.1 nam r.1, r.2.2) := rfl

lemma visitF_call (fuel : ℕ) (func : String) (args : List Expr) (env : Env)
    (g : NodeGraph) :
    visitF (fuel + 1) (Expr.Call func args) env g =
      visitCallF fuel func args env g := rfl

lemma visitF_program (fuel : ℕ) (es : List Expr) (env : Env) (g : NodeGraph) :
    visitF (fuel + 1) (Expr.Program es) env g =
      match visitListF fuel es env g with
      | Except.error err => Except.error err
      | Except.ok r => Except.ok (Value.Nil, r.1, r.2) := rfl

/-- Packaged invariant step for the `Output` call arm (which additionally
records the new node as the designated output). -/
lemma createOutput_inv (g g1 : NodeGraph) (env1 : Env) (inp : Input)
    (hinv1 : LoadInv g1) (henv1 : EnvBounded g1 env1)
    (hmono_n : g.nodes.length ≤ g1.nodes.length)
    (hmono_s : g.store.length ≤ g1.store.length)
    (hN : inp.Bounded (g1.outputs.length + 1) g1.store.length) :
    LoadInv (g1.create_output inp).1 ∧ EnvBounded (g1.create_output inp).1 env1 ∧
    ValueBounded (g1.create_output inp).1 (Value.NodeID (g1.create_output inp).2) ∧
    g.nodes.length ≤ (g1.create_output inp).1.nodes.length ∧
    g.store.length ≤ (g1.create_output inp).1.store.length := by
  obtain ⟨hinvA, hid, hlen, holen, hstore, hout⟩ :=
    add_node_loadInv g1 (Node.Output inp) hinv1 hN
  have hn : g1.nodes.length ≤ (g1.create_output inp).1.nodes.length := by
    show g1.nodes.length ≤ (g1.add_node (Node.Output inp)).1.nodes.length
    rw [hlen]
    omega
  have hs : g1.store.length ≤ (g1.create_output inp).1.store.length := by
    show g1.store.length ≤ (g1.add_node (Node.Output inp)).1.store.length
    rw [hstore]
  refine ⟨⟨hinvA.1, hinvA.2.1, ?_, ?_⟩, EnvBounded_mono hn hs env1 henv1, ?_, ?_, ?_⟩
  · intro i m hi
    exact hinvA.2.2.1 i m hi
  · intro i hi
    have hi2 : some (g1.add_node (Node.Output inp)).2 = some i := hi
    rw [← Option.some.inj hi2]
    show (g1.add_node (Node.Output inp)).2 <
      (g1.add_node (Node.Output inp)).1.outputs.length
    rw [hid, holen]
    have hwf1 : g1.outputs.length = g1.nodes.length := hinv1.1
    omega
  · show (g1.add_node (Node.Output inp)).2 < (g1.add_node (Node.Output inp)).1.nodes.length
    rw [hid, hlen]
    omega
  · exact le_trans hmono_n hn
  · exact le_trans hmono_s hs

/-- The main induction: all four visit functions preserve the loader
invariant, keep the environment and produced values bounded, and only grow
the node and store buffers. -/
lemma visit_inv_all : ∀ fuel : ℕ,
    VisitInvF fuel ∧ VisitInvList fuel ∧ VisitInvArgs fuel ∧ VisitInvCall fuel := by
  intro fuel
  induction fuel with
  | zero =>
    refine ⟨?_, ?_, ?_, ?_⟩
    · intro e env g v env' g' hok
      exact Except.noConfusion hok
    · intro es env g env' g' hok hinv henv
      cases es with
      | nil =>
        injection hok with h
        injection h with h1 h2
        subst h1; subst h2
        exact ⟨hinv, henv, le_refl _, le_refl _⟩
      | cons e rest => exact Except.noConfusion hok
    · intro args i count env g vs env' g' hok hinv henv
      cases count with
      | zero =>
        injection hok with h
        injection h with h1 h2
        injection h2 with h2a h2b
        subst h1; subst h2a; subst h2b
        refine ⟨hinv, henv, ?_, le_refl _, le_refl _⟩
        intro v hv
        exact absurd hv (List.not_mem_nil v)
      | succ count => exact Except.noConfusion hok
    · intro func args env g v env' g' hok
      exact Except.noConfusion hok
  | succ fuel ih =>
    obtain ⟨ihF, ihL, ihA, ihC⟩ := ih
    have hA : VisitInvArgs (fuel + 1) := by
      intro args i count env g vs env' g' hok hinv henv
      cases count with
      | zero =>
        injection hok with h
        injection h with h1 h2
        injection h2 with h2a h2b
        subst h1; subst h2a; subst h2b
        refine ⟨hinv, henv, ?_, le_refl _, le_refl _⟩
        intro v hv
        exact absurd hv (List.not_mem_nil v)
      | succ count =>
        rw [visitArgsF_succ] at hok
        split at hok
        · exact Except.noConfusion hok
        · rename_i a ha
          split at hok
          · exact Except.noConfusion hok
          · rename_i r1 hv1
            obtain ⟨v1, env1, g1⟩ := r1
            have h1 := ihF a env g v1 env1 g1 hv1 hinv henv
            split at hok
            · exact Except.noConfusion hok
            · rename_i r2 h2
              obtain ⟨vs2, env2, g2⟩ := r2
              have hrec := ihA args (i + 1) count env1 g1 vs2 env2 g2 h2 h1.1 h1.2.1
              injection hok with h
              injection h with hv hrest
              injection hrest with he hg
              subst hv; subst he; subst hg
              refine ⟨hrec.1, hrec.2.1, ?_,
                le_trans h1.2.2.2.1 hrec.2.2.2.1, le_trans h1.2.2.2.2 hrec.2.2.2.2⟩
              intro w hw
              rcases List.mem_cons.mp hw with rfl | hw2
              · exact ValueBounded_mono hrec.2.2.2.1 hrec.2.2.2.2 w h1.2.2.1
              · exact hrec.2.2.1 w hw2
    have hL : VisitInvList (fuel + 1) := by
      intro es env g env' g' hok hinv henv
      cases es with
      | nil =>
        injection hok with h
        injection h with h1 h2
        subst h1; subst h2
        exact ⟨hinv, henv, le_refl _, le_refl _⟩
      | cons e rest =>
        rw [visitListF_cons] at hok
        split at hok
        · exact Except.noConfusion hok
        · rename_i r1 hv1
          obtain ⟨v1, env1, g1⟩ := r1
          have h1 := ihF e env g v1 env1 g1 hv1 hinv henv
          have hrec := ihL rest env1 g1 env' g' hok h1.1 h1.2.1
          exact ⟨hrec.1, hrec.2.1,
            le_trans h1.2.2.2.1 hrec.2.2.1, le_trans h1.2.2.2.2 hrec.2.2.2⟩
    have hC : VisitInvCall (fuel + 1) := by
      intro func args env g v env' g' hok hinv henv
      unfold visitCallF at hok
      by_cases hf1 : func = "CreateStore"
      · rw [if_pos hf1] at hok
        injection hok with h
        injection h with h1 h2
        injection h2 with h2a h2b
        subst h1; subst h2a; subst h2b
        have hn : g.nodes.length ≤ g.create_value_store.1.nodes.length := le_refl _
        have hs : g.store.length ≤ g.create_value_store.1.store.length := by
          show g.store.length ≤ (g.store ++ [F32.fin 0]).length
          simp
        refine ⟨store_extend_loadInv g hinv, EnvBounded_mono hn hs env henv, ?_, hn, hs⟩
        show g.store.length < (g.store ++ [F32.fin 0]).length
        simp
      rw [if_neg hf1] at hok
      by_cases hf2 : func = "LFO"
      · rw [if_pos hf2] at hok
        split at hok
        · exact Except.noConfusion hok
        · rename_i r1 hargs
          obtain ⟨vs1, env1, g1⟩ := r1
          have h1 := ihA args 0 1 env g vs1 env1 g1 hargs hinv henv
          injection hok with h
          injection h with h1v h2x
          injection h2x with h2a h2b
          subst h1v; subst h2a; subst h2b
          exact createNode_inv g g1 env1 _ h1.1 h1.2.1 h1.2.2.2.1 h1.2.2.2.2
            (toInput_bounded g1 _ h1.1.1 (getD_valueBounded g1 vs1 0 h1.2.2.1))
      rw [if_neg hf2] at hok
      by_cases hf3 : func = "Output"
      · rw [if_pos hf3] at hok
        split at hok
        · exact Except.noConfusion hok
        · rename_i r1 hargs
          obtain ⟨vs1, env1, g1⟩ := r1
          have h1 := ihA args 0 1 env g vs1 env1 g1 hargs hinv henv
          injection hok with h
          injection h with h1v h2x
          injection h2x with h2a h2b
          subst h1v; subst h2a; subst h2b
          exact createOutput_inv g g1 env1 _ h1.1 h1.2.1 h1.2.2.2.1 h1.2.2.2.2
            (toInput_bounded g1 _ h1.1.1 (getD_valueBounded g1 vs1 0 h1.2.2.1))
      rw [if_neg hf3] at hok
      by_cases hf4 : func = "Sine"
      · rw [if_pos hf4] at hok
        split at hok
        · exact Except.noConfusion hok
        · rename_i r1 hargs
          obtain ⟨vs1, env1, g1⟩ := r1
          have h1 := ihA args 0 2 env g vs1 env1 g1 hargs hinv henv
          injection hok with h
          injection h with h1v h2x
          injection h2x with h2a h2b
          subst h1v; subst h2a; subst h2b
          exact createNode_inv g g1 env1 _ h1.1 h1.2.1 h1.2.2.2.1 h1.2.2.2.2
            ⟨toInput_bounded g1 _ h1.1.1 (getD_valueBounded g1 vs1 0 h1.2.2.1),
             toInput_bounded g1 _ h1.1.1 (getD_valueBounded g1 vs1 1 h1.2.2.1)⟩
      rw [if_neg hf4] at hok
      by_cases hf5 : func = "Square"
      · rw [if_pos hf5] at hok
        split at hok
        · exact Except.noConfusion hok
        · rename_i r1 hargs
          obtain ⟨vs1, env1, g1⟩ := r1
          have h1 := ihA args 0 2 env g vs1 env1 g1 hargs hinv henv
          injection hok with h
          injection h with h1v h2x
          injection h2x with h2a h2b
          subst h1v; subst h2a; subst h2b
          exact createNode_inv g g1 env1 _ h1.1 h1.2.1 h1.2.2.2.1 h1.2.2.2.2
            ⟨toInput_bounded g1 _ h1.1.1 (getD_valueBounded g1 vs1 0 h1.2.2.1),
             toInput_bounded g1 _ h1.1.1 (getD_valueBounded g1 vs1 1 h1.2.2.1)⟩
      rw [if_neg hf5] at hok
      by_cases hf6 : func = "Saw"
      · rw [if_pos hf6] at hok
        split at hok
        · exact Except.noConfusion hok
        · rename_i r1 hargs
          obtain ⟨vs1, env1, g1⟩ := r1
          have h1 := ihA args 0 2 env g vs1 env1 g1 hargs hinv henv
          injection hok with h
          injection h with h1v h2x
          injection h2x with h2a h2b
          subst h1v; subst h2a; subst h2b
          exact createNode_inv g g1 env1 _ h1.1 h1.2.1 h1.2.2.2.1 h1.2.2.2.2
            ⟨toInput_bounded g1 _ h1.1.1 (getD_valueBounded g1 vs1 0 h1.2.2.1),
             toInput_bounded g1 _ h1.1.1 (getD_valueBounded g1 vs1 1 h1.2.2.1)⟩
      rw [if_neg hf6] at hok
      by_cases hf7 : func = "Triangle"
      · rw [if_pos hf7] at hok
        split at hok
        · exact Except.noConfusion hok
        · rename_i r1 hargs
          obtain ⟨vs1, env1, g1⟩ := r1
          have h1 := ihA args 0 2 env g vs1 env1 g1 hargs hinv henv
          injection hok with h
          injection h with h1v h2x
          injection h2x with h2a h2b
          subst h1v; subst h2a; subst h2b
          exact createNode_inv g g1 env1 _ h1.1 h1.2.1 h1.2.2.2.1 h1.2.2.2.2
            ⟨toInput_bounded g1 _ h1.1.1 (getD_valueBounded g1 vs1 0 h1.2.2.1),
             toInput_bounded g1 _ h1.1.1 (getD_valueBounded g1 vs1 1 h1.2.2.1)⟩
      rw [if_neg hf7] at hok
      by_cases hf8 : func = "Map"
      · rw [if_pos hf8] at hok
        split at hok
        · exact Except.noConfusion hok
        · rename_i r1 hargs
          obtain ⟨vs1, env1, g1⟩ := r1
          have h1 := ihA args 0 5 env g vs1 env1 g1 hargs hinv henv
          injection hok with h
          injection h with h1v h2x
          injection h2x with h2a h2b
          subst h1v; subst h2a; subst h2b
          exact createNode_inv g g1 env1 _ h1.1 h1.2.1 h1.2.2.2.1 h1.2.2.2.2
            (toInput_bounded g1 _ h1.1.1 (getD_valueBounded g1 vs1 0 h1.2.2.1))
      rw [if_neg hf8] at hok
      by_cases hf9 : func = "Add"
      · rw [if_pos hf9] at hok
        split at hok
        · exact Except.noConfusion hok
        · rename_i r1 hargs
          obtain ⟨vs1, env1, g1⟩ := r1
          have h1 := ihA args 0 2 env g vs1 env1 g1 hargs hinv henv
          injection hok with h
          injection h with h1v h2x
          injection h2x with h2a h2b
          subst h1v; subst h2a; subst h2b
          exact createNode_inv g g1 env1 _ h1.1 h1.2.1 h1.2.2.2.1 h1.2.2.2.2
            ⟨toInput_bounded g1 _ h1.1.1 (getD_valueBounded g1 vs1 0 h1.2.2.1),
             toInput_bounded g1 _ h1.1.1 (getD_valueBounded g1 vs1 1 h1.2.2.1)⟩
      rw [if_neg hf9] at hok
      by_cases hf10 : func = "Sub"
      · rw [if_pos hf10] at hok
        split at hok
        · exact Except.noConfusion hok
        · rename_i r1 hargs
          obtain ⟨vs1, env1, g1⟩ := r1
          have h1 := ihA args 0 2 env g vs1 env1 g1 hargs hinv henv
          injection hok with h
          injection h with h1v h2x
          injection h2x with h2a h2b
          subst h1v; subst h2a; subst h2b
          exact createNode_inv g g1 env1 _ h1.1 h1.2.1 h1.2.2.2.1 h1.2.2.2.2
            ⟨toInput_bounded g1 _ h1.1.1 (getD_valueBounded g1 vs1 0 h1.2.2.1),
             toInput_bounded g1 _ h1.1.1 (getD_valueBounded g1 vs1 1 h1.2.2.1)⟩
      rw [if_neg hf10] at hok
      by_cases hf11 : func = "Mul"
      · rw [if_pos hf11] at hok
        split at hok
        · exact Except.noConfusion hok
        · rename_i r1 hargs
          obtain ⟨vs1, env1, g1⟩ := r1
          have h1 := ihA args 0 2 env g vs1 env1 g1 hargs hinv henv
          injection hok with h
          injection h with h1v h2x
          injection h2x with h2a h2b
          subst h1v; subst h2a; subst h2b
          exact createNode_inv g g1 env1 _ h1.1 h1.2.1 h1.2.2.2.1 h1.2.2.2.2
            ⟨toInput_bounded g1 _ h1.1.1 (getD_valueBounded g1 vs1 0 h1.2.2.1),
             toInput_bounded g1 _ h1.1.1 (getD_valueBounded g1 vs1 1 h1.2.2.1)⟩
      rw [if_neg hf11] at hok
      by_cases hf12 : func = "Writer"
      · rw [if_pos hf12] at hok
        split at hok
        · exact Except.noConfusion hok
        · rename_i r1 hargs
          obtain ⟨vs1, env1, g1⟩ := r1
          have h1 := ihA args 0 1 env g vs1 env1 g1 hargs hinv henv
          split at hok
          case _ iS hvd =>
            split at hok
            · exact Except.noConfusion hok
            · rename_i r2 hargs2
              obtain ⟨vs2, env2, g2⟩ := r2
              have h2 := ihA args 1 1 env1 g1 vs2 env2 g2 hargs2 h1.1 h1.2.1
              injection hok with h
              injection h with h1v h2x
              injection h2x with h2a h2b
              subst h1v; subst h2a; subst h2b
              have hiS : iS < g1.store.length := by
                have hgd := getD_valueBounded g1 vs1 0 h1.2.2.1
                rw [hvd] at hgd
                exact hgd
              have hN : (Node.Writer iS (vs2.getD 0 Value.Nil).toInput).InputsBounded
                  (g2.outputs.length + 1) g2.store.length := by
                refine ⟨lt_of_lt_of_le hiS h2.2.2.2.2, ?_⟩
                exact toInput_bounded g2 _ h2.1.1 (getD_valueBounded g2 vs2 0 h2.2.2.1)
              have hres := createNode_inv g1 g2 env2 _ h2.1 h2.2.1 h2.2.2.2.1
                h2.2.2.2.2 hN
              exact ⟨hres.1, hres.2.1, hres.2.2.1,
                le_trans h1.2.2.2.1 hres.2.2.2.1, le_trans h1.2.2.2.2 hres.2.2.2.2⟩
          case _ x hvd hne => exact Except.noConfusion hok
      rw [if_neg hf12] at hok
      by_cases hf13 : func = "Mix"
      · rw [if_pos hf13] at hok
        split at hok
        · exact Except.noConfusion hok
        · rename_i r1 hargs
          obtain ⟨vs1, env1, g1⟩ := r1
          have h1 := ihA args 0 3 env g vs1 env1 g1 hargs hinv henv
          injection hok with h
          injection h with h1v h2x
          injection h2x with h2a h2b
          subst h1v; subst h2a; subst h2b
          exact createNode_inv g g1 env1 _ h1.1 h1.2.1 h1.2.2.2.1 h1.2.2.2.2
            ⟨toInput_bounded g1 _ h1.1.1 (getD_valueBounded g1 vs1 0 h1.2.2.1),
             toInput_bounded g1 _ h1.1.1 (getD_valueBounded g1 vs1 1 h1.2.2.1)⟩
      rw [if_neg hf13] at hok
      exact Except.noConfusion hok
    have hF : VisitInvF (fuel + 1) := by
      intro e env g v env' g' hok hinv henv
      cases e with
      | Literal val =>
        injection hok with h
        injection h with h1 h2
        injection h2 with h2a h2b
        subst h1; subst h2a; subst h2b
        exact ⟨hinv, henv, trivial, le_refl _, le_refl _⟩
      | Identifier s =>
        rw [visitF_identifier] at hok
        split at hok
        · rename_i hg
          injection hok with h
          injection h with h1 h2
          injection h2 with h2a h2b
          subst h1; subst h2a; subst h2b
          exact ⟨hinv, envSet_bounded g env s Value.Nil henv trivial, trivial,
            le_refl _, le_refl _⟩
        · rename_i v0 hg
          injection hok with h
          injection h with h1 h2
          injection h2 with h2a h2b
          subst h1; subst h2a; subst h2b
          exact ⟨hinv, henv, envGet_bounded g env s _ henv hg, le_refl _, le_refl _⟩
      | Assign a b =>
        cases a with
        | Identifier nam =>
          rw [visitF_assign_ident] at hok
          split at hok
          · exact Except.noConfusion hok
          · rename_i r1 hb
            obtain ⟨vb, envb, gb⟩ := r1
            have h1 := ihF b env g vb envb gb hb hinv henv
            injection hok with h
            injection h with h1v h2x
            injection h2x with h2a h2b
            subst h1v; subst h2a; subst h2b
            exact ⟨h1.1, envSet_bounded gb envb nam vb h1.2.1 h1.2.2.1, trivial,
              h1.2.2.2.1, h1.2.2.2.2⟩
        | Literal q => exact Except.noConfusion hok
        | Assign x y => exact Except.noConfusion hok
        | Call f as => exact Except.noConfusion hok
        | Program es => exact Except.noConfusion hok
      | Call func args =>
        rw [visitF_call] at hok
        exact ihC func args env g v env' g' hok hinv henv
      | Program es =>
        rw [visitF_program] at hok
        split at hok
        · exact Except.noConfusion hok
        · rename_i r1 hl
          obtain ⟨env1, g1⟩ := r1
          have h1 := ihL es env g env1 g1 hl hinv henv
          injection hok with h
          injection h with h1v h2x
          injection h2x with h2a h2b
          subst h1v; subst h2a; subst h2b
          exact ⟨h1.1, h1.2.1, trivial, h1.2.2.1, h1.2.2.2⟩
    exact ⟨hF, hL, hA, hC⟩

/-! ## C9: the claim theorem -/

lemma add_node_wf_store (g : NodeGraph) (n : Node) (h : g.wf) :
    (g.add_node n).1.wf ∧ g.store.length ≤ (g.add_node n).1.store.length := by
  have h' : g.outputs.length = g.nodes.length := h
  unfold NodeGraph.add_node
  by_cases hd : g.dead.isEmpty
  · rw [if_pos hd]
    constructor
    · show (g.outputs ++ [F32.fin 0]).length = (g.nodes ++ [n]).length
      simp [h']
    · exact le_refl _
  · rw [if_neg hd]
    constructor
    · show g.outputs.length = (g.nodes.set (g.dead.getLastD 0) n).length
      simp [h']
    · exact le_refl _

lemma sample_wf_store (m : MathModel) (g : NodeGraph) (h : g.wf) :
    (NodeGraph.sample m g).1.wf ∧
      g.store.length ≤ (NodeGraph.sample m g).1.store.length := by
  have h' : g.outputs.length = g.nodes.length := h
  rw [sample_fst]
  constructor
  · show (passUpto m g.initState g.nodes.length).outputs.length =
      (passUpto m g.initState g.nodes.length).nodes.length
    rw [passUpto_outputs_length, passUpto_nodes_length]
    exact h'
  · show g.store.length ≤ (passUpto m g.initState g.nodes.length).store.length
    rw [passUpto_store_length]
    exact le_refl _

/-- C9: every graph operation preserves `outputs.len() == nodes.len()` and
never shrinks the store (first group of conjuncts), and every graph built by
`GraphLoader::load` is well-formed with an empty free-list and all
`Input::Node` / `Input::Store` / `Writer` indices and the designated output
id in bounds — so the direct indexing done by `sample()` stays inside the
buffers for loaded graphs. -/
theorem graph_ops_wf_and_load_bounded :
    (∀ (g : NodeGraph) (n : Node), g.wf →
      (g.add_node n).1.wf ∧ g.store.length ≤ (g.add_node n).1.store.length) ∧
    (∀ (g : NodeGraph) (freq amp : Input), g.wf →
      (g.create_sine freq amp).1.wf ∧
        g.store.length ≤ (g.create_sine freq amp).1.store.length) ∧
    (∀ (g : NodeGraph) (freq amp : Input), g.wf →
      (g.create_square freq amp).1.wf ∧
        g.store.length ≤ (g.create_square freq amp).1.store.length) ∧
    (∀ (g : NodeGraph) (freq amp : Input), g.wf →
      (g.create_saw freq amp).1.wf ∧
        g.store.length ≤ (g.create_saw freq amp).1.store.length) ∧
    (∀ (g : NodeGraph) (freq amp : Input), g.wf →
      (g.create_triangle freq amp).1.wf ∧
        g.store.length ≤ (g.create_triangle freq amp).1.store.length) ∧
    (∀ (g : NodeGraph) (freq : Input), g.wf →
      (g.create_lfo freq).1.wf ∧ g.store.length ≤ (g.create_lfo freq).1.store.length) ∧
    (∀ (g : NodeGraph) (s : Input) (a b c d : F32), g.wf →
      (g.create_map s a b c d).1.wf ∧
        g.store.length ≤ (g.create_map s a b c d).1.store.length) ∧
    (∀ (g : NodeGraph) (a b : Input), g.wf →
      (g.create_add a b).1.wf ∧ g.store.length ≤ (g.create_add a b).1.store.length) ∧
    (∀ (g : NodeGraph) (a b : Input), g.wf →
      (g.create_sub a b).1.wf ∧ g.store.length ≤ (g.create_sub a b).1.store.length) ∧
    (∀ (g : NodeGraph) (a b : Input), g.wf →
      (g.create_mul a b).1.wf ∧ g.store.length ≤ (g.create_mul a b).1.store.length) ∧
    (∀ (g : NodeGraph) (w : ℕ) (x : Input), g.wf →
      (g.create_writer w x).1.wf ∧
        g.store.length ≤ (g.create_writer w x).1.store.length) ∧
    (∀ (g : NodeGraph) (a b : Input) (f : F32), g.wf →
      (g.create_mix a b f).1.wf ∧ g.store.length ≤ (g.create_mix a b f).1.store.length) ∧
    (∀ (g : NodeGraph) (x : Input), g.wf →
      (g.create_output x).1.wf ∧ g.store.length ≤ (g.create_output x).1.store.length) ∧
    (∀ g : NodeGraph, g.wf →
      g.create_value_store.1.wf ∧
        g.store.length ≤ g.create_value_store.1.store.length) ∧
    (∀ (g g' : NodeGraph) (id : ℕ), g.wf →
      g.delete_node id = NodeGraph.DelResult.ok g' →
      g'.wf ∧ g.store.length ≤ g'.store.length) ∧
    (∀ (m : MathModel) (g : NodeGraph), g.wf →
      (NodeGraph.sample m g).1.wf ∧
        g.store.length ≤ (NodeGraph.sample m g).1.store.length) ∧
    (∀ (src : String) (g : NodeGraph), GraphLoader.load src = Except.ok g →
      g.wf ∧ g.dead = [] ∧ g.Bounded) := by
  refine ⟨add_node_wf_store,
    fun g freq amp h => add_node_wf_store g _ h,
    fun g freq amp h => add_node_wf_store g _ h,
    fun g freq amp h => add_node_wf_store g _ h,
    fun g freq amp h => add_node_wf_store g _ h,
    fun g freq h => add_node_wf_store g _ h,
    fun g s a b c d h => add_node_wf_store g _ h,
    fun g a b h => add_node_wf_store g _ h,
    fun g a b h => add_node_wf_store g _ h,
    fun g a b h => add_node_wf_store g _ h,
    fun g w x h => add_node_wf_store g _ h,
    fun g a b f h => add_node_wf_store g _ h,
    fun g x h => add_node_wf_store g (Node.Output x) h,
    ?_, ?_, sample_wf_store, ?_⟩
  · intro g h
    constructor
    · exact h
    · show g.store.length ≤ (g.store ++ [F32.fin 0]).length
      simp
  · intro g g' id h hdel
    have h' : g.outputs.length = g.nodes.length := h
    unfold NodeGraph.delete_node at hdel
    by_cases h1 : id ∈ g.dead
    · rw [if_pos h1] at hdel
      exact NodeGraph.DelResult.noConfusion hdel
    · rw [if_neg h1] at hdel
      by_cases h2 : id < g.nodes.length
      · rw [if_pos h2] at hdel
        injection hdel with hg
        rw [← hg]
        constructor
        · show g.outputs.length = (g.nodes.set id Node.Null).length
          simp [h']
        · exact le_refl _
      · rw [if_neg h2] at hdel
        exact NodeGraph.DelResult.noConfusion hdel
  · intro src g hload
    unfold GraphLoader.load at hload
    split at hload
    · exact Except.noConfusion hload
    · rename_i prog hp
      split at hload
      · exact Except.noConfusion hload
      · rename_i r hv
        obtain ⟨v1, env1, g1⟩ := r
        injection hload with hg
        have hinv0 : LoadInv (NodeGraph.new 44100) := by
          refine ⟨rfl, rfl, ?_, ?_⟩
          · intro i m hi
            exact Option.noConfusion hi
          · intro i hi
            exact Option.noConfusion hi
        have henv0 : EnvBounded (NodeGraph.new 44100) [] := by
          intro p hp2
          exact absurd hp2 (List.not_mem_nil p)
        have hres := (visit_inv_all (src.length * 8 + 64)).1 prog []
          (NodeGraph.new 44100) v1 env1 g1 hv hinv0 henv0
        rw [← hg]
        exact ⟨hres.1.1, hres.1.2.1, hres.1.2.2⟩

/-- Witness for C9: the preservation conjuncts at `gW`, the deletion at
slot 1 of `gW`, and the bounds for the loaded graph of `"Output(0.0)"`. -/
theorem graph_ops_wf_and_load_bounded_witness :
    gW.wf ∧
    ((gW.create_sine (Input.Value (F32.fin 1)) (Input.Value (F32.fin 1))).1.wf ∧
      gW.store.length ≤
        (gW.create_sine (Input.Value (F32.fin 1)) (Input.Value (F32.fin 1))).1.store.length) ∧
    gW.delete_node 1 = NodeGraph.DelResult.ok gWdel ∧
    (gWdel.wf ∧ gW.store.length ≤ gWdel.store.length) ∧
    ((NodeGraph.sample mZero gW).1.wf ∧
      gW.store.length ≤ (NodeGraph.sample mZero gW).1.store.length) ∧
    GraphLoader.load "Output(0.0)" = Except.ok gOut ∧
    (gOut.wf ∧ gOut.dead = [] ∧ gOut.Bounded) := by
  obtain ⟨hAdd, hSine, hSquare, hSaw, hTriangle, hLfo, hMap, hA2, hS2, hM2, hWr,
    hMix, hOut, hCvs, hDel, hSample, hLoad⟩ := graph_ops_wf_and_load_bounded
  have hwf : gW.wf := by
    show gW.outputs.length = gW.nodes.length
    rfl
  have hdel : gW.delete_node 1 = NodeGraph.DelResult.ok gWdel := by decide
  have hload : GraphLoader.load "Output(0.0)" = Except.ok gOut :=
    eq_ok_of_toOption (by decide)
  exact ⟨hwf,
    hSine gW (Input.Value (F32.fin 1)) (Input.Value (F32.fin 1)) hwf,
    hdel,
    hDel gW gWdel 1 hwf hdel,
    hSample mZero gW hwf,
    hload,
    hLoad "Output(0.0)" gOut hload⟩

end Twen
